import Mathlib

/-!
# Verification of the BINOKUB-COLOR placement/validation engine

Shallow embedding of the game logic of `src/App.tsx` (handlers `handleDrop`,
`handleTileReturn`, `handleHint`, `handleFinalCodeSubmit`, the phase-transition
`useEffect`, and the session state they act on), together with proofs of the
specification's claims about it.

Conventions of the embedding:
* JavaScript numbers holding tile values / bases / codes are modelled as `Int`
  (all arithmetic in scope is integer arithmetic).
* The 9×9 board and solution matrices are modelled as total functions on
  `Fin 9`; array accesses in the source are always in bounds by the guards
  that precede them, which the embedding mirrors.
* Each React `useState` cell is a field of `GameState`; a handler is a pure
  function `GameState → GameState × List SoundType`, the list being the
  `playSound` feedback events the handler emits.
* `Math.random()`-driven choices are parameters of the corresponding
  functions (an arbitrary index / cell coordinate).
-/

namespace Binokub

inductive Status where
  | empty
  | correct
  | incorrect
deriving DecidableEq, Repr

/-- `TileData` of `src/types` as used by `App.tsx`: `{ value, base }`. -/
structure TileData where
  value : Int
  base : Int
deriving DecidableEq, Repr

/-- `BoardCell`: `{ tile: Tile | null, status, isHint }`. -/
structure BoardCell where
  tile : Option TileData
  status : Status
  isHint : Bool
deriving DecidableEq, Repr

/-- `GRID_SIZE` from `src/constants`. -/
abbrev GRID_SIZE : Nat := 9

abbrev Board := Fin GRID_SIZE → Fin GRID_SIZE → BoardCell

abbrev Solution := Fin GRID_SIZE → Fin GRID_SIZE → Int

inductive GamePhase where
  | placing
  | final_challenge
  | won
deriving DecidableEq, Repr

/-- `SoundType` of `src/hooks/useSounds.ts` (`'return'` is `tileReturn` here). -/
inductive SoundType where
  | correct
  | incorrect
  | hint
  | win
  | click
  | tileReturn
deriving DecidableEq, Repr

/-- The `useState` cells of the `App` component that the game logic touches. -/
structure GameState where
  solution : Solution
  boardState : Board
  paletteTiles : List TileData
  draggedTile : Option TileData
  correctTilesCount : Nat
  hintsUsed : Nat
  gamePhase : GamePhase
  blinkingCell : Option (Fin GRID_SIZE × Fin GRID_SIZE)
  finalCodeAnswer : Option Int
  finalCodeInput : Option Int
  challengeShake : Bool
deriving DecidableEq

def emptyCell : BoardCell := ⟨none, Status.empty, false⟩

/-- Replacing one cell of the board (the source copies the matrix and
assigns one entry). -/
def setCell (b : Board) (r c : Fin GRID_SIZE) (cell : BoardCell) : Board :=
  fun i j => if i = r ∧ j = c then cell else b i j

/-- Modelled from the spec: `calculateBase` lives in `src/lib/game.ts`, which is
absent from `src/` (only its import in `App.tsx` is visible). Spec §3:
`base(v) = floor((v - 1) / 9) + 1`. -/
def calculateBase (v : Int) : Int := (v - 1) / 9 + 1

/-- The tile value sitting at a (nat-indexed) cell, `none` when out of range or
the cell is empty; mirrors `boardState[r][c].tile?.value` at guarded indices. -/
def cellTileValue (board : Board) (r c : Nat) : Option Int :=
  if h : r < GRID_SIZE ∧ c < GRID_SIZE then
    (board ⟨r, h.1⟩ ⟨c, h.2⟩).tile.map TileData.value
  else none

/-- The sequence check of `handleDrop` (App.tsx lines 141-153): each occupied
orthogonal neighbor must hold the matching ±9 (vertical) / ±1 (horizontal)
value. -/
def isSequenceValid (board : Board) (t : TileData) (row col : Fin GRID_SIZE) : Bool :=
  let up : Bool :=
    if 0 < row.val then
      match cellTileValue board (row.val - 1) col.val with
      | some v => decide (v = t.value - 9)
      | none => true
    else true
  let down : Bool :=
    if row.val < GRID_SIZE - 1 then
      match cellTileValue board (row.val + 1) col.val with
      | some v => decide (v = t.value + 9)
      | none => true
    else true
  let left : Bool :=
    if 0 < col.val then
      match cellTileValue board row.val (col.val - 1) with
      | some v => decide (v = t.value - 1)
      | none => true
    else true
  let right : Bool :=
    if col.val < GRID_SIZE - 1 then
      match cellTileValue board row.val (col.val + 1) with
      | some v => decide (v = t.value + 1)
      | none => true
    else true
  up && down && left && right

/-- `handleDrop` (App.tsx lines 130-176). The first guard of the source
(`!isUIInteractive || !draggedTile || boardState[row][col].tile`) returns
silently; the base and sequence rejections play `'incorrect'`. -/
def handleDrop (st : GameState) (row col : Fin GRID_SIZE) :
    GameState × List SoundType :=
  if st.gamePhase ≠ GamePhase.placing then (st, []) else
  match st.draggedTile with
  | none => (st, [])
  | some draggedTile =>
    if (st.boardState row col).tile.isSome then (st, []) else
    if draggedTile.base ≠ (col.val : Int) + 1 then (st, [SoundType.incorrect]) else
    if ¬ isSequenceValid st.boardState draggedTile row col then
      (st, [SoundType.incorrect])
    else
      let isCorrectPosition := st.solution row col = draggedTile.value
      let newBoardState := setCell st.boardState row col
        ⟨some draggedTile,
         if isCorrectPosition then Status.correct else Status.incorrect, false⟩
      ({ st with
          boardState := newBoardState,
          paletteTiles :=
            st.paletteTiles.filter (fun t => decide (t.value ≠ draggedTile.value)),
          correctTilesCount :=
            if isCorrectPosition then st.correctTilesCount + 1
            else st.correctTilesCount,
          draggedTile := none },
       [if isCorrectPosition then SoundType.correct else SoundType.incorrect])

/-- The dependent-tile condition of `handleTileReturn` (App.tsx lines 184-186):
an occupied cell just below or just to the right. -/
def hasDependentTile (board : Board) (fromRow fromCol : Fin GRID_SIZE) : Prop :=
  (fromRow.val < GRID_SIZE - 1 ∧
    (cellTileValue board (fromRow.val + 1) fromCol.val).isSome) ∨
  (fromCol.val < GRID_SIZE - 1 ∧
    (cellTileValue board fromRow.val (fromCol.val + 1)).isSome)

instance (board : Board) (r c : Fin GRID_SIZE) :
    Decidable (hasDependentTile board r c) := by
  unfold hasDependentTile; infer_instance

/-- `handleTileReturn` (App.tsx lines 178-198). The `status === 'correct'`
rejection returns silently; the dependent-tile rejection plays `'incorrect'`.
The `tile` argument is supplied by the board component as the dragged cell's
own tile. -/
def handleTileReturn (st : GameState) (tile : TileData)
    (fromRow fromCol : Fin GRID_SIZE) : GameState × List SoundType :=
  if st.gamePhase ≠ GamePhase.placing then (st, []) else
  if (st.boardState fromRow fromCol).status = Status.correct then (st, []) else
  if hasDependentTile st.boardState fromRow fromCol then (st, [SoundType.incorrect])
  else
    ({ st with
        boardState := setCell st.boardState fromRow fromCol emptyCell,
        paletteTiles := st.paletteTiles ++ [tile] },
     [SoundType.tileReturn])

/-- All 81 cells in row-major order (the traversal order of the source's
`forEach` / nested `for` loops). -/
def allCells : List (Fin GRID_SIZE × Fin GRID_SIZE) :=
  (List.finRange GRID_SIZE).flatMap
    (fun r => (List.finRange GRID_SIZE).map (fun c => (r, c)))

/-- The `unsolvedCells` collection of `handleHint` (App.tsx lines 204-207). -/
def unsolvedCells (board : Board) : List (Fin GRID_SIZE × Fin GRID_SIZE) :=
  allCells.filter (fun p => decide ((board p.1 p.2).status ≠ Status.correct))

/-- The eviction search of `handleHint` (App.tsx lines 220-229): the first
cell, in row-major order, whose tile holds the given value. -/
def findCellWithValue (board : Board) (v : Int) :
    Option (Fin GRID_SIZE × Fin GRID_SIZE) :=
  allCells.find? (fun p => decide ((board p.1 p.2).tile.map TileData.value = some v))

/-- `handleHint` (App.tsx lines 200-244). `idx` stands for the
`Math.floor(Math.random() * unsolvedCells.length)` draw; it is reduced modulo
the list length, so any value denotes a valid random draw. -/
def handleHint (st : GameState) (idx : Nat) : GameState × List SoundType :=
  if st.gamePhase ≠ GamePhase.placing then (st, []) else
  let unsolved := unsolvedCells st.boardState
  if unsolved.isEmpty then (st, [SoundType.hint]) else
  let pick := unsolved.getD (idx % unsolved.length) ((0 : Fin GRID_SIZE), (0 : Fin GRID_SIZE))
  let hintRow := pick.1
  let hintCol := pick.2
  let correctValue := st.solution hintRow hintCol
  let correctTileData : TileData := ⟨correctValue, calculateBase correctValue⟩
  let palette1 :=
    match (st.boardState hintRow hintCol).tile with
    | some tileAtTarget => st.paletteTiles ++ [tileAtTarget]
    | none => st.paletteTiles
  let searched := findCellWithValue st.boardState correctValue
  let board1 :=
    match searched with
    | some p => setCell st.boardState p.1 p.2 emptyCell
    | none => st.boardState
  let palette2 :=
    match searched with
    | some _ => palette1
    | none => palette1.filter (fun t => decide (t.value ≠ correctValue))
  let newCount :=
    if (board1 hintRow hintCol).status ≠ Status.correct then
      st.correctTilesCount + 1
    else st.correctTilesCount
  let board2 := setCell board1 hintRow hintCol
    ⟨some correctTileData, Status.correct, true⟩
  ({ st with
      boardState := board2,
      paletteTiles := palette2,
      correctTilesCount := newCount,
      hintsUsed := st.hintsUsed + 1 },
   [SoundType.hint])

/-- The comparison `parseInt(finalCodeInput, 10) === finalCodeAnswer` of
`handleFinalCodeSubmit`: `none` stands for an unparseable input (`NaN`) or a
`null` answer, and `NaN`/`null` compare unequal to every number. -/
def answerMatches (input answer : Option Int) : Bool :=
  match input, answer with
  | some a, some b => a == b
  | _, _ => false

/-- `handleFinalCodeSubmit` (App.tsx lines 246-259). The 500ms timeout that
clears `challengeShake` again is presentation timing and is not modelled. -/
def handleFinalCodeSubmit (st : GameState) : GameState × List SoundType :=
  if answerMatches st.finalCodeInput st.finalCodeAnswer then
    ({ st with gamePhase := GamePhase.won, blinkingCell := none }, [SoundType.win])
  else
    ({ st with challengeShake := true, finalCodeInput := none },
     [SoundType.incorrect])

/-- The phase-transition `useEffect` (App.tsx lines 261-275), which React runs
after every state update; `randomRow`/`randomCol` stand for the two
`Math.random()` draws. -/
def checkPhaseTransition (st : GameState) (randomRow randomCol : Fin GRID_SIZE) :
    GameState × List SoundType :=
  if st.gamePhase = GamePhase.placing ∧
      st.correctTilesCount = GRID_SIZE * GRID_SIZE ∧ 0 < st.correctTilesCount then
    ({ st with
        blinkingCell := some (randomRow, randomCol),
        finalCodeAnswer := some (calculateBase (st.solution randomRow randomCol)),
        gamePhase := GamePhase.final_challenge },
     [SoundType.win])
  else (st, [])

/-- One hint user action together with the reactive phase-transition effect
that React runs on the resulting state. -/
def hintStep (st : GameState) (idx : Nat) (rr rc : Fin GRID_SIZE) : GameState :=
  (checkPhaseTransition (handleHint st idx).1 rr rc).1

/-- Modelled from the spec: `generateGameData` (in the absent `src/lib/game.ts`)
supplies the solution grid and shuffled palette; `newGame` (App.tsx lines
86-100) then resets every other state cell as below. The solution grid and
initial palette are parameters. -/
def initialState (sol : Solution) (pal : List TileData) : GameState where
  solution := sol
  boardState := fun _ _ => emptyCell
  paletteTiles := pal
  draggedTile := none
  correctTilesCount := 0
  hintsUsed := 0
  gamePhase := GamePhase.placing
  blinkingCell := none
  finalCodeAnswer := none
  finalCodeInput := none
  challengeShake := false

/-- One user-visible mutation of the session state. `dragStart` models
`handleDragStart` (App.tsx 125-128), invoked by the palette component only for
tiles it renders (`paletteTiles`). A board-tile drag instead calls
`onTileReturn` on dragstart (GameBoard) and never touches `draggedTile`, and
`handleDrop` clears `draggedTile` only on acceptance (App.tsx 175), so a drop
may fire with a stale `draggedTile` — the `drop` step therefore carries no
palette-membership hypothesis. -/
inductive Step : GameState → GameState → Prop where
  | dragStart (st : GameState) (t : TileData) (hmem : t ∈ st.paletteTiles) :
      Step st { st with draggedTile := some t }
  | drop (st : GameState) (row col : Fin GRID_SIZE) :
      Step st (handleDrop st row col).1
  | tileReturn (st : GameState) (t : TileData) (row col : Fin GRID_SIZE)
      (hcell : (st.boardState row col).tile = some t) :
      Step st (handleTileReturn st t row col).1
  | hint (st : GameState) (idx : Nat) :
      Step st (handleHint st idx).1
  | submitCode (st : GameState) :
      Step st (handleFinalCodeSubmit st).1
  | phaseTransition (st : GameState) (rr rc : Fin GRID_SIZE) :
      Step st (checkPhaseTransition st rr rc).1

/-- States reachable from a new game with the given solution and palette. -/
inductive Reachable (sol : Solution) (pal : List TileData) : GameState → Prop where
  | init : Reachable sol pal (initialState sol pal)
  | step {st st' : GameState} : Reachable sol pal st → Step st st' →
      Reachable sol pal st'

/-- The fresh-drag discipline: every placement is a dragstart of a tile still
in the palette followed immediately by its drop (no stale `draggedTile`).
This is the restriction under which the ownership invariant holds; the
unrestricted `Step` relation can violate it (see the stale-drag trace). -/
inductive FreshStep : GameState → GameState → Prop where
  | drop (st : GameState) (t : TileData) (row col : Fin GRID_SIZE)
      (hmem : t ∈ st.paletteTiles) :
      FreshStep st (handleDrop { st with draggedTile := some t } row col).1
  | tileReturn (st : GameState) (t : TileData) (row col : Fin GRID_SIZE)
      (hcell : (st.boardState row col).tile = some t) :
      FreshStep st (handleTileReturn st t row col).1
  | hint (st : GameState) (idx : Nat) :
      FreshStep st (handleHint st idx).1
  | submitCode (st : GameState) :
      FreshStep st (handleFinalCodeSubmit st).1
  | phaseTransition (st : GameState) (rr rc : Fin GRID_SIZE) :
      FreshStep st (checkPhaseTransition st rr rc).1

/-- States reachable from a new game under the fresh-drag discipline. -/
inductive FreshReachable (sol : Solution) (pal : List TileData) :
    GameState → Prop where
  | init : FreshReachable sol pal (initialState sol pal)
  | step {st st' : GameState} : FreshReachable sol pal st → FreshStep st st' →
      FreshReachable sol pal st'

/-- The canonical construction `solution[r][c] = c*9 + r + 1` of spec §4.1,
used as a concrete solution grid in witnesses. -/
def canonicalSol : Solution := fun r c => (c.val : Int) * 9 + (r.val : Int) + 1

/-- A concrete full 81-tile palette (values 1..81), used in witnesses. -/
def canonicalPal : List TileData :=
  (List.range 81).map (fun i => ⟨(i : Int) + 1, calculateBase ((i : Int) + 1)⟩)

/-- The stale-drag trace: drag the value-1 tile from the palette (a drop of it
is never accepted, so `draggedTile` keeps it), let a hint claim cell (0,0) —
whose solution Value is 1 — which filters that tile out of the palette, then
drop the stale dragged tile at the empty, sequence-valid cell (2,0). -/
def staleDragState : GameState :=
  (handleDrop
    (handleHint
      { initialState canonicalSol canonicalPal with draggedTile := some ⟨1, 1⟩ }
      0).1
    2 0).1

/-- Concrete state: empty board, tile of value 1 being dragged (spec Scenario 1). -/
def dropExample : GameState :=
  { initialState canonicalSol [⟨1, 1⟩] with draggedTile := some ⟨1, 1⟩ }

/-- Concrete state: cell (0,0) occupied, a base-1 tile being dragged. -/
def occupiedExample : GameState :=
  { initialState canonicalSol canonicalPal with
      boardState := setCell (fun _ _ => emptyCell) 0 0
        ⟨some ⟨1, 1⟩, Status.incorrect, false⟩,
      draggedTile := some ⟨2, 1⟩ }

/-- Concrete state: cell (0,0) holds a correctly placed (locked) tile. -/
def lockedExample : GameState :=
  { initialState canonicalSol canonicalPal with
      boardState := setCell (fun _ _ => emptyCell) 0 0
        ⟨some ⟨1, 1⟩, Status.correct, false⟩ }

/-- Concrete state: the tile of value 1 sits misplaced at (1,0); its correct
cell (0,0) (canonical solution) is empty. -/
def hintExample : GameState :=
  { initialState canonicalSol [⟨2, 1⟩] with
      boardState := setCell (fun _ _ => emptyCell) 1 0
        ⟨some ⟨1, 1⟩, Status.incorrect, false⟩ }

/-- Concrete state in the final challenge: the answer is 1, the typed guess 2. -/
def challengeExample : GameState :=
  { initialState canonicalSol [] with
      gamePhase := GamePhase.final_challenge,
      finalCodeAnswer := some 1,
      finalCodeInput := some 2 }

/-- Concrete state with 80 cells correctly filled (all but (8,8)). -/
def almostDone : GameState :=
  { initialState canonicalSol [⟨81, 9⟩] with
      boardState := fun r c =>
        if r = 8 ∧ c = 8 then emptyCell
        else ⟨some ⟨canonicalSol r c, calculateBase (canonicalSol r c)⟩,
              Status.correct, false⟩,
      correctTilesCount := 80 }

/-- The cells of a board satisfying a predicate. -/
def cellsWhere (board : Board) (p : BoardCell → Prop) [DecidablePred p] :
    Finset (Fin GRID_SIZE × Fin GRID_SIZE) :=
  Finset.univ.filter (fun q => p (board q.1 q.2))

/-- The number of cells whose status is `correct`. -/
def countCorrect (board : Board) : Nat :=
  (cellsWhere board (fun cell => cell.status = Status.correct)).card

/-- How many palette tiles carry the given value. -/
def paletteCount (pal : List TileData) (v : Int) : Nat :=
  pal.countP (fun t => decide (t.value = v))

/-- How many board cells hold a tile of the given value. -/
def boardCount (board : Board) (v : Int) : Nat :=
  (cellsWhere board (fun cell => cell.tile.map TileData.value = some v)).card

/-- Exactly one container (the palette, or one board cell) holds the value. -/
def OwnsValue (st : GameState) (v : Int) : Prop :=
  (paletteCount st.paletteTiles v = 1 ∧ boardCount st.boardState v = 0) ∨
  (paletteCount st.paletteTiles v = 0 ∧ boardCount st.boardState v = 1)

/-- The ownership invariant of spec §3, for every Value in [1, 81]. -/
def Ownership (st : GameState) : Prop :=
  ∀ v : Int, 1 ≤ v → v ≤ 81 → OwnsValue st v

/-- Cell statuses agree with the solution: a cell is `correct` exactly when it
holds the solution's Value for that cell, and `empty` exactly when unoccupied. -/
def StatusConsistent (st : GameState) : Prop :=
  ∀ r c : Fin GRID_SIZE,
    ((st.boardState r c).status = Status.correct ↔
      (st.boardState r c).tile.map TileData.value = some (st.solution r c)) ∧
    ((st.boardState r c).status = Status.empty ↔ (st.boardState r c).tile = none)

/-- The correctness counter equals the number of `correct` cells. -/
def CounterOk (st : GameState) : Prop :=
  st.correctTilesCount = countCorrect st.boardState

/-- In the placing phase no final-challenge answer has been drawn yet. -/
def AnswerOk (st : GameState) : Prop :=
  st.gamePhase = GamePhase.placing → st.finalCodeAnswer = none

/-- The solution grid holds Values in [1, 81] with no repetition (spec §3). -/
def SolutionValid (sol : Solution) : Prop :=
  (∀ r c : Fin GRID_SIZE, 1 ≤ sol r c ∧ sol r c ≤ 81) ∧
  (∀ r c r' c' : Fin GRID_SIZE, sol r c = sol r' c' → r = r' ∧ c = c')

/-- The initial palette holds each Value 1..81 exactly once (spec §4.2: all 81
tiles derived from the solution grid, shuffled). -/
def PaletteInit (pal : List TileData) : Prop :=
  ∀ k : Fin 81, paletteCount pal ((k.val : Int) + 1) = 1

instance (st : GameState) : Decidable (CounterOk st) := by
  unfold CounterOk; infer_instance

instance (st : GameState) : Decidable (StatusConsistent st) := by
  unfold StatusConsistent; infer_instance

instance (sol : Solution) : Decidable (SolutionValid sol) := by
  unfold SolutionValid; infer_instance

instance (pal : List TileData) : Decidable (PaletteInit pal) := by
  unfold PaletteInit; infer_instance

instance (st : GameState) : Decidable (AnswerOk st) := by
  unfold AnswerOk; infer_instance

instance (st : GameState) (v : Int) : Decidable (OwnsValue st v) := by
  unfold OwnsValue; infer_instance

/-- The part of the session invariant that survives every faithful step, stale
drops included: valid solution, statuses consistent, counter consistent, no
final answer while placing. -/
def WInv (st : GameState) : Prop :=
  SolutionValid st.solution ∧ StatusConsistent st ∧ CounterOk st ∧ AnswerOk st

/-- The full session invariant, preserved under the fresh-drag discipline. -/
def Inv (st : GameState) : Prop :=
  SolutionValid st.solution ∧ Ownership st ∧ StatusConsistent st ∧
  CounterOk st ∧ AnswerOk st

section Lemmas

theorem setCell_self (b : Board) (r c : Fin GRID_SIZE) (cell : BoardCell) :
    setCell b r c cell r c = cell := by
  simp [setCell]

theorem setCell_ne (b : Board) (r c : Fin GRID_SIZE) (cell : BoardCell)
    (i j : Fin GRID_SIZE) (h : ¬(i = r ∧ j = c)) :
    setCell b r c cell i j = b i j := by
  simp [setCell, h]

theorem mem_allCells (p : Fin GRID_SIZE × Fin GRID_SIZE) : p ∈ allCells := by
  rcases p with ⟨r, c⟩
  simp only [allCells, List.mem_flatMap, List.mem_map]
  exact ⟨r, List.mem_finRange r, c, List.mem_finRange c, rfl⟩

theorem mem_unsolvedCells (b : Board) (p : Fin GRID_SIZE × Fin GRID_SIZE) :
    p ∈ unsolvedCells b ↔ (b p.1 p.2).status ≠ Status.correct := by
  simp [unsolvedCells, List.mem_filter, mem_allCells]

theorem getD_mod_mem {α : Type} (l : List α) (n : Nat) (d : α) (h : l ≠ []) :
    l.getD (n % l.length) d ∈ l := by
  have hlen : 0 < l.length := List.length_pos.mpr h
  have hlt : n % l.length < l.length := Nat.mod_lt _ hlen
  rw [List.getD_eq_getElem l d hlt]
  exact List.getElem_mem hlt

/-- Computation of `handleHint` when the hint cell's correct value is found on
the board (the eviction branch): the found cell is emptied, the tile formerly
at the hint cell (if any) joins the palette, and the correct tile is placed. -/
theorem handleHint_found (st : GameState) (idx : Nat) (hr hc : Fin GRID_SIZE)
    (p : Fin GRID_SIZE × Fin GRID_SIZE)
    (hphase : st.gamePhase = GamePhase.placing)
    (hne : unsolvedCells st.boardState ≠ [])
    (hpick : (unsolvedCells st.boardState).getD
        (idx % (unsolvedCells st.boardState).length) (0, 0) = (hr, hc))
    (hfind : findCellWithValue st.boardState (st.solution hr hc) = some p) :
    handleHint st idx =
      ({ st with
          boardState := setCell (setCell st.boardState p.1 p.2 emptyCell) hr hc
            ⟨some ⟨st.solution hr hc, calculateBase (st.solution hr hc)⟩,
             Status.correct, true⟩,
          paletteTiles := st.paletteTiles ++ (st.boardState hr hc).tile.toList,
          correctTilesCount :=
            if (setCell st.boardState p.1 p.2 emptyCell hr hc).status ≠ Status.correct
            then st.correctTilesCount + 1 else st.correctTilesCount,
          hintsUsed := st.hintsUsed + 1 },
       [SoundType.hint]) := by
  have hnotempty : (unsolvedCells st.boardState).isEmpty = false := by
    simpa [List.isEmpty_iff] using hne
  unfold handleHint
  rw [if_neg (by simp [hphase])]
  rw [if_neg (by simp [hnotempty])]
  simp only [hpick, hfind]
  cases htile : (st.boardState hr hc).tile <;> simp [htile]

/-- Computation of `handleHint` when the hint cell's correct value is not on
the board: it is filtered out of the palette (after the tile formerly at the
hint cell, if any, has been pushed), and the correct tile is placed. -/
theorem handleHint_notfound (st : GameState) (idx : Nat) (hr hc : Fin GRID_SIZE)
    (hphase : st.gamePhase = GamePhase.placing)
    (hne : unsolvedCells st.boardState ≠ [])
    (hpick : (unsolvedCells st.boardState).getD
        (idx % (unsolvedCells st.boardState).length) (0, 0) = (hr, hc))
    (hfind : findCellWithValue st.boardState (st.solution hr hc) = none) :
    handleHint st idx =
      ({ st with
          boardState := setCell st.boardState hr hc
            ⟨some ⟨st.solution hr hc, calculateBase (st.solution hr hc)⟩,
             Status.correct, true⟩,
          paletteTiles :=
            (st.paletteTiles ++ (st.boardState hr hc).tile.toList).filter
              (fun t => decide (t.value ≠ st.solution hr hc)),
          correctTilesCount :=
            if (st.boardState hr hc).status ≠ Status.correct
            then st.correctTilesCount + 1 else st.correctTilesCount,
          hintsUsed := st.hintsUsed + 1 },
       [SoundType.hint]) := by
  have hnotempty : (unsolvedCells st.boardState).isEmpty = false := by
    simpa [List.isEmpty_iff] using hne
  unfold handleHint
  rw [if_neg (by simp [hphase])]
  rw [if_neg (by simp [hnotempty])]
  simp only [hpick, hfind]
  cases htile : (st.boardState hr hc).tile <;> simp [htile]

end Lemmas

/-- C9: for every Value v in [1, 81], `base(v) = floor((v − 1) / 9) + 1` and
`1 ≤ base(v) ≤ 9`: `calculateBase` computes exactly this integer formula and
its result always lies in [1, 9]. -/
theorem calculateBase_spec (v : Int) (h1 : 1 ≤ v) (h2 : v ≤ 81) :
    calculateBase v = (v - 1) / 9 + 1 ∧
    1 ≤ calculateBase v ∧ calculateBase v ≤ 9 := by
  refine ⟨rfl, ?_, ?_⟩ <;> unfold calculateBase <;> omega

theorem calculateBase_spec_witness :
    (1 : Int) ≤ 10 ∧
    (calculateBase 10 = (10 - 1) / 9 + 1 ∧
     1 ≤ calculateBase 10 ∧ calculateBase 10 ≤ 9) :=
  ⟨by decide, calculateBase_spec 10 (by decide) (by decide)⟩

/-- C8: whenever the phase is `final_challenge` or `won`, every placement,
tile-return and hint operation is a complete no-op: the state (board, palette,
correctness counter, hint counter included) is returned unchanged and no
feedback is emitted. -/
theorem frozen_phase_spec (st : GameState)
    (h : st.gamePhase = GamePhase.final_challenge ∨ st.gamePhase = GamePhase.won) :
    (∀ row col : Fin GRID_SIZE, handleDrop st row col = (st, [])) ∧
    (∀ (t : TileData) (row col : Fin GRID_SIZE),
        handleTileReturn st t row col = (st, [])) ∧
    (∀ idx : Nat, handleHint st idx = (st, [])) := by
  have hne : st.gamePhase ≠ GamePhase.placing := by
    rcases h with h | h <;> simp [h]
  refine ⟨fun row col => ?_, fun t row col => ?_, fun idx => ?_⟩ <;>
    simp [handleDrop, handleTileReturn, handleHint, hne]

theorem frozen_phase_spec_witness :
    challengeExample.gamePhase = GamePhase.final_challenge ∧
    handleDrop challengeExample 0 0 = (challengeExample, []) ∧
    handleTileReturn challengeExample ⟨1, 1⟩ 0 0 = (challengeExample, []) ∧
    handleHint challengeExample 0 = (challengeExample, []) := by
  have h := frozen_phase_spec challengeExample (Or.inl rfl)
  exact ⟨rfl, h.1 0 0, h.2.1 ⟨1, 1⟩ 0 0, h.2.2 0⟩

/-- C6: on the transition into `final_challenge` the target answer is
`base(v)` for `v` the solution Value of the randomly selected cell; in
`final_challenge`, a guess equal to the answer moves the phase to `won`, and
any other guess (malformed input included) keeps the phase, clears the input,
raises the shake signal, and leaves board, palette and counter unchanged. -/
theorem final_challenge_spec :
    (∀ (st : GameState) (rr rc : Fin GRID_SIZE),
        st.gamePhase = GamePhase.placing →
        st.correctTilesCount = GRID_SIZE * GRID_SIZE →
        (checkPhaseTransition st rr rc).1.gamePhase = GamePhase.final_challenge ∧
        (checkPhaseTransition st rr rc).1.finalCodeAnswer =
          some (calculateBase (st.solution rr rc))) ∧
    (∀ st : GameState, st.gamePhase = GamePhase.final_challenge →
        (answerMatches st.finalCodeInput st.finalCodeAnswer = true →
          (handleFinalCodeSubmit st).1.gamePhase = GamePhase.won) ∧
        (answerMatches st.finalCodeInput st.finalCodeAnswer = false →
          (handleFinalCodeSubmit st).1.gamePhase = GamePhase.final_challenge ∧
          (handleFinalCodeSubmit st).1.finalCodeInput = none ∧
          (handleFinalCodeSubmit st).1.challengeShake = true ∧
          (handleFinalCodeSubmit st).2 = [SoundType.incorrect] ∧
          (handleFinalCodeSubmit st).1.boardState = st.boardState ∧
          (handleFinalCodeSubmit st).1.paletteTiles = st.paletteTiles ∧
          (handleFinalCodeSubmit st).1.correctTilesCount = st.correctTilesCount)) := by
  constructor
  · intro st rr rc hphase hcount
    have : st.gamePhase = GamePhase.placing ∧
        st.correctTilesCount = GRID_SIZE * GRID_SIZE ∧ 0 < st.correctTilesCount := by
      refine ⟨hphase, hcount, ?_⟩
      rw [hcount]
      norm_num
    simp [checkPhaseTransition, this]
  · intro st hphase
    constructor
    · intro hmatch
      simp [handleFinalCodeSubmit, hmatch]
    · intro hmatch
      simp [handleFinalCodeSubmit, hmatch, hphase]

theorem final_challenge_spec_witness :
    challengeExample.gamePhase = GamePhase.final_challenge ∧
    answerMatches challengeExample.finalCodeInput challengeExample.finalCodeAnswer
      = false ∧
    (handleFinalCodeSubmit challengeExample).1.gamePhase
      = GamePhase.final_challenge ∧
    (handleFinalCodeSubmit challengeExample).1.finalCodeInput = none ∧
    (handleFinalCodeSubmit challengeExample).2 = [SoundType.incorrect] := by
  have h := (final_challenge_spec.2 challengeExample rfl).2 (by decide)
  exact ⟨rfl, by decide, h.1, h.2.1, h.2.2.2.1⟩

/-- C1: in the placing phase, a drop on an empty cell of the matching column
base whose occupied neighbors all satisfy the ±9/±1 sequence deltas is
accepted: the cell is filled with the dragged tile, its status is `correct`
exactly when the solution Value matches, the tile's value is removed from the
palette, and the correctness counter is incremented exactly when the status is
`correct` (with the matching feedback sound). -/
theorem drop_accept_spec (st : GameState) (t : TileData) (row col : Fin GRID_SIZE)
    (hphase : st.gamePhase = GamePhase.placing)
    (hdrag : st.draggedTile = some t)
    (hempty : (st.boardState row col).tile = none)
    (hbase : t.base = (col.val : Int) + 1)
    (hseq : isSequenceValid st.boardState t row col = true) :
    (handleDrop st row col).1.boardState = setCell st.boardState row col
        ⟨some t,
         if st.solution row col = t.value then Status.correct else Status.incorrect,
         false⟩ ∧
    (handleDrop st row col).1.paletteTiles =
        st.paletteTiles.filter (fun u => decide (u.value ≠ t.value)) ∧
    (∀ u ∈ (handleDrop st row col).1.paletteTiles, u.value ≠ t.value) ∧
    (handleDrop st row col).1.correctTilesCount =
        (if st.solution row col = t.value then st.correctTilesCount + 1
         else st.correctTilesCount) ∧
    (handleDrop st row col).2 =
        [if st.solution row col = t.value then SoundType.correct
         else SoundType.incorrect] := by
  simp only [handleDrop, hphase, hdrag, hempty, hbase, hseq]
  simp [List.mem_filter]

theorem drop_accept_spec_witness :
    dropExample.gamePhase = GamePhase.placing ∧
    (dropExample.boardState 0 0).tile = none ∧
    isSequenceValid dropExample.boardState ⟨1, 1⟩ 0 0 = true ∧
    ((handleDrop dropExample 0 0).1.boardState = setCell dropExample.boardState 0 0
        ⟨some ⟨1, 1⟩,
         if dropExample.solution 0 0 = (1 : Int) then Status.correct
         else Status.incorrect,
         false⟩ ∧
     (handleDrop dropExample 0 0).1.paletteTiles =
        dropExample.paletteTiles.filter (fun u => decide (u.value ≠ (1 : Int))) ∧
     (∀ u ∈ (handleDrop dropExample 0 0).1.paletteTiles, u.value ≠ (1 : Int)) ∧
     (handleDrop dropExample 0 0).1.correctTilesCount =
        (if dropExample.solution 0 0 = (1 : Int) then
          dropExample.correctTilesCount + 1
         else dropExample.correctTilesCount) ∧
     (handleDrop dropExample 0 0).2 =
        [if dropExample.solution 0 0 = (1 : Int) then SoundType.correct
         else SoundType.incorrect]) :=
  ⟨rfl, rfl, by decide,
   drop_accept_spec dropExample ⟨1, 1⟩ 0 0 rfl rfl rfl (by decide) (by decide)⟩

/-- C2 counterexample: with the target cell occupied (the first rejection
condition), the drop is rejected as a no-op but emits no `incorrect` feedback
event at all — the returned sound list is empty, contradicting the claim that
every rejection signals `incorrect`. -/
theorem drop_occupied_silent_cex :
    occupiedExample.gamePhase = GamePhase.placing ∧
    occupiedExample.draggedTile = some ⟨2, 1⟩ ∧
    (occupiedExample.boardState 0 0).tile.isSome = true ∧
    handleDrop occupiedExample 0 0 = (occupiedExample, []) := by
  decide

/-- C2 (amended): the three rejection conditions are checked in order with
short-circuiting — occupied target, base mismatch, sequence violation — and
each rejection returns the state unchanged; the base and sequence rejections
signal an `incorrect` feedback event, while the occupied-target rejection is
silent. -/
theorem drop_reject_spec (st : GameState) (t : TileData) (row col : Fin GRID_SIZE)
    (hphase : st.gamePhase = GamePhase.placing)
    (hdrag : st.draggedTile = some t) :
    ((st.boardState row col).tile.isSome → handleDrop st row col = (st, [])) ∧
    ((st.boardState row col).tile = none → t.base ≠ (col.val : Int) + 1 →
        handleDrop st row col = (st, [SoundType.incorrect])) ∧
    ((st.boardState row col).tile = none → t.base = (col.val : Int) + 1 →
        isSequenceValid st.boardState t row col = false →
        handleDrop st row col = (st, [SoundType.incorrect])) := by
  refine ⟨fun hocc => ?_, fun hempty hbase => ?_, fun hempty hbase hseq => ?_⟩ <;>
    simp_all [handleDrop]

theorem drop_reject_spec_witness :
    occupiedExample.draggedTile = some ⟨2, 1⟩ ∧
    handleDrop occupiedExample 0 0 = (occupiedExample, []) :=
  ⟨rfl, (drop_reject_spec occupiedExample ⟨2, 1⟩ 0 0 rfl rfl).1 (by decide)⟩

/-- C3 counterexample: returning a tile whose cell has status `correct` is
rejected as a no-op but emits no `incorrect` feedback event — the returned
sound list is empty, contradicting the claim that any rejection signals
`incorrect`. -/
theorem return_locked_silent_cex :
    lockedExample.gamePhase = GamePhase.placing ∧
    (lockedExample.boardState 0 0).tile = some ⟨1, 1⟩ ∧
    (lockedExample.boardState 0 0).status = Status.correct ∧
    handleTileReturn lockedExample ⟨1, 1⟩ 0 0 = (lockedExample, []) := by
  decide

/-- C3 (amended): a tile may be returned from an occupied cell only if the
cell's status is not `correct` and no dependent tile sits at (row+1, col) or
(row, col+1); every rejection leaves the state unchanged — the dependent-tile
rejection signals `incorrect` while the locked-cell rejection is silent;
acceptance empties the cell and appends the tile to the palette. In
particular, a cell with status `correct` is never emptied by a return. -/
theorem tile_return_spec (st : GameState) (t : TileData) (row col : Fin GRID_SIZE)
    (hphase : st.gamePhase = GamePhase.placing)
    (hcell : (st.boardState row col).tile = some t) :
    ((st.boardState row col).status = Status.correct →
        handleTileReturn st t row col = (st, [])) ∧
    ((st.boardState row col).status ≠ Status.correct →
        hasDependentTile st.boardState row col →
        handleTileReturn st t row col = (st, [SoundType.incorrect])) ∧
    ((st.boardState row col).status ≠ Status.correct →
        ¬ hasDependentTile st.boardState row col →
        handleTileReturn st t row col =
          ({ st with
              boardState := setCell st.boardState row col emptyCell,
              paletteTiles := st.paletteTiles ++ [t] },
           [SoundType.tileReturn])) := by
  refine ⟨fun hcorr => ?_, fun hcorr hdep => ?_, fun hcorr hdep => ?_⟩ <;>
    simp_all [handleTileReturn]

theorem tile_return_spec_witness :
    (lockedExample.boardState 0 0).status = Status.correct ∧
    handleTileReturn lockedExample ⟨1, 1⟩ 0 0 = (lockedExample, []) :=
  ⟨rfl, (tile_return_spec lockedExample ⟨1, 1⟩ 0 0 rfl rfl).1 rfl⟩

/-- C4 counterexample: the hint targets the empty cell (0,0), whose correct
Value 1 sits misplaced at (1,0). That cell is indeed emptied, but its tile is
NOT added to the palette (the palette is returned unchanged, without any tile
of value 1): the Value moves to the hinted cell instead, contradicting the
claim that the evicted cell's tile is added to the palette. -/
theorem hint_eviction_palette_cex :
    hintExample.gamePhase = GamePhase.placing ∧
    (hintExample.boardState 0 0) = emptyCell ∧
    (hintExample.boardState 1 0).tile = some ⟨1, 1⟩ ∧
    hintExample.solution 0 0 = 1 ∧
    (handleHint hintExample 0).1.boardState 0 0 =
      ⟨some ⟨1, 1⟩, Status.correct, true⟩ ∧
    (handleHint hintExample 0).1.boardState 1 0 = emptyCell ∧
    (handleHint hintExample 0).1.paletteTiles = hintExample.paletteTiles ∧
    (∀ u ∈ (handleHint hintExample 0).1.paletteTiles, u.value ≠ 1) := by
  decide

/-- C4 (amended): a hint in the placing phase selects one cell whose status is
not `correct` (no-op on board, palette and counter when none exists). The
correct tile for the chosen cell is placed there with status `correct` and
`isHint = true`, and the correctness and hint counters are incremented. If the
correct Value sits in some other board cell, that cell is emptied and the
Value moves to the chosen cell — the palette gains the tile previously at the
chosen cell (if any), not the evicted one; otherwise the Value is filtered out
of the palette (again after the chosen cell's previous tile, if any, was
pushed). -/
theorem hint_spec (st : GameState) (idx : Nat)
    (hphase : st.gamePhase = GamePhase.placing) :
    (unsolvedCells st.boardState = [] →
        handleHint st idx = (st, [SoundType.hint])) ∧
    (∀ hr hc : Fin GRID_SIZE,
      unsolvedCells st.boardState ≠ [] →
      (unsolvedCells st.boardState).getD
          (idx % (unsolvedCells st.boardState).length) (0, 0) = (hr, hc) →
      ((handleHint st idx).1.boardState hr hc =
          ⟨some ⟨st.solution hr hc, calculateBase (st.solution hr hc)⟩,
           Status.correct, true⟩ ∧
       (handleHint st idx).1.correctTilesCount = st.correctTilesCount + 1 ∧
       (handleHint st idx).1.hintsUsed = st.hintsUsed + 1 ∧
       (handleHint st idx).2 = [SoundType.hint] ∧
       (∀ p : Fin GRID_SIZE × Fin GRID_SIZE,
          findCellWithValue st.boardState (st.solution hr hc) = some p →
          p ≠ (hr, hc) →
          (handleHint st idx).1.boardState p.1 p.2 = emptyCell ∧
          (handleHint st idx).1.paletteTiles =
            st.paletteTiles ++ (st.boardState hr hc).tile.toList) ∧
       (findCellWithValue st.boardState (st.solution hr hc) = none →
          (handleHint st idx).1.paletteTiles =
            (st.paletteTiles ++ (st.boardState hr hc).tile.toList).filter
              (fun t => decide (t.value ≠ st.solution hr hc))))) := by
  constructor
  · intro hemp
    simp [handleHint, hphase, hemp]
  · intro hr hc hne hpick
    have hmem : ((hr, hc) : Fin GRID_SIZE × Fin GRID_SIZE) ∈
        unsolvedCells st.boardState := by
      rw [← hpick]; exact getD_mod_mem _ _ _ hne
    have hstat : (st.boardState hr hc).status ≠ Status.correct :=
      (mem_unsolvedCells _ _).mp hmem
    cases hfind : findCellWithValue st.boardState (st.solution hr hc) with
    | some p =>
      have heq := handleHint_found st idx hr hc p hphase hne hpick hfind
      rw [heq]
      have hstat1 : (setCell st.boardState p.1 p.2 emptyCell hr hc).status ≠
          Status.correct := by
        by_cases hp : hr = p.1 ∧ hc = p.2
        · simp [setCell, hp, emptyCell]
        · rw [setCell_ne _ _ _ _ _ _ hp]
          exact hstat
      refine ⟨setCell_self _ _ _ _, by simp [hstat1], rfl, rfl, ?_, ?_⟩
      · intro q hq hqne
        have hqp : p = q := Option.some.inj hq
        subst hqp
        have hne2 : ¬(p.1 = hr ∧ p.2 = hc) := by
          intro hcontra
          exact hqne (Prod.ext hcontra.1 hcontra.2)
        exact ⟨(setCell_ne _ _ _ _ _ _ hne2).trans (setCell_self _ _ _ _), rfl⟩
      · intro hnone
        exact absurd hnone (by simp)
    | none =>
      have heq := handleHint_notfound st idx hr hc hphase hne hpick hfind
      rw [heq]
      refine ⟨setCell_self _ _ _ _, by simp [hstat], rfl, rfl, ?_, fun _ => rfl⟩
      intro q hq _
      exact absurd hq (by simp)

theorem answerMatches_none (x : Option Int) : answerMatches x none = false := by
  cases x <;> rfl

theorem handleDrop_phase (st : GameState) (row col : Fin GRID_SIZE) :
    (handleDrop st row col).1.gamePhase = st.gamePhase := by
  unfold handleDrop
  repeat' split
  all_goals rfl

theorem handleTileReturn_phase (st : GameState) (t : TileData)
    (row col : Fin GRID_SIZE) :
    (handleTileReturn st t row col).1.gamePhase = st.gamePhase := by
  unfold handleTileReturn
  repeat' split
  all_goals rfl

theorem handleHint_phase (st : GameState) (idx : Nat) :
    (handleHint st idx).1.gamePhase = st.gamePhase := by
  unfold handleHint
  split
  · rfl
  by_cases hemp : (unsolvedCells st.boardState).isEmpty <;> simp [hemp]

theorem checkPhaseTransition_spec (st : GameState) (rr rc : Fin GRID_SIZE) :
    (checkPhaseTransition st rr rc).1.correctTilesCount = st.correctTilesCount ∧
    (checkPhaseTransition st rr rc).1.gamePhase =
      (if st.gamePhase = GamePhase.placing ∧
          st.correctTilesCount = GRID_SIZE * GRID_SIZE ∧
          0 < st.correctTilesCount
       then GamePhase.final_challenge else st.gamePhase) := by
  unfold checkPhaseTransition
  split <;> exact ⟨rfl, rfl⟩

theorem unsolved_ne_nil (b : Board) (h : countCorrect b < GRID_SIZE * GRID_SIZE) :
    unsolvedCells b ≠ [] := by
  intro hnil
  have hall : ∀ q : Fin GRID_SIZE × Fin GRID_SIZE,
      (b q.1 q.2).status = Status.correct := by
    intro q
    by_contra hq
    have hmem : q ∈ unsolvedCells b := (mem_unsolvedCells b q).mpr hq
    rw [hnil] at hmem
    exact absurd hmem (List.not_mem_nil q)
  have huniv : cellsWhere b (fun cell => cell.status = Status.correct) =
      Finset.univ := by
    apply Finset.eq_univ_iff_forall.mpr
    intro q
    simp [cellsWhere, hall q]
  have hcard : Fintype.card (Fin GRID_SIZE × Fin GRID_SIZE) = 81 := by decide
  rw [countCorrect, huniv, Finset.card_univ, hcard] at h
  exact absurd h (by decide)

theorem handleHint_progress (st : GameState) (idx : Nat)
    (hphase : st.gamePhase = GamePhase.placing)
    (hne : unsolvedCells st.boardState ≠ []) :
    (handleHint st idx).1.correctTilesCount = st.correctTilesCount + 1 := by
  rcases hpick : (unsolvedCells st.boardState).getD
      (idx % (unsolvedCells st.boardState).length) (0, 0) with ⟨hr, hc⟩
  have hmem : ((hr, hc) : Fin GRID_SIZE × Fin GRID_SIZE) ∈
      unsolvedCells st.boardState := by
    rw [← hpick]; exact getD_mod_mem _ _ _ hne
  have hstat : (st.boardState hr hc).status ≠ Status.correct :=
    (mem_unsolvedCells _ _).mp hmem
  cases hfind : findCellWithValue st.boardState (st.solution hr hc) with
  | some p =>
    rw [handleHint_found st idx hr hc p hphase hne hpick hfind]
    have hstat1 : (setCell st.boardState p.1 p.2 emptyCell hr hc).status ≠
        Status.correct := by
      by_cases hp : hr = p.1 ∧ hc = p.2
      · simp [setCell, hp, emptyCell]
      · rw [setCell_ne _ _ _ _ _ _ hp]
        exact hstat
    simp [hstat1]
  | none =>
    rw [handleHint_notfound st idx hr hc hphase hne hpick hfind]
    simp [hstat]

/-- C5: in the placing phase with a consistent counter below 81, a hint user
action (with the reactive phase-transition effect) strictly increases the
correctness counter by one; the phase becomes `final_challenge` exactly when
the counter thereby reaches 81 and stays `placing` otherwise; and no single
operation can leave the `placing` phase while the counter is below 81. -/
theorem hint_progress_spec (st : GameState) (idx : Nat) (rr rc : Fin GRID_SIZE)
    (hphase : st.gamePhase = GamePhase.placing)
    (hcount : CounterOk st)
    (hans : st.finalCodeAnswer = none)
    (hlt : st.correctTilesCount < GRID_SIZE * GRID_SIZE) :
    (hintStep st idx rr rc).correctTilesCount = st.correctTilesCount + 1 ∧
    ((hintStep st idx rr rc).gamePhase = GamePhase.final_challenge ↔
        st.correctTilesCount + 1 = GRID_SIZE * GRID_SIZE) ∧
    (st.correctTilesCount + 1 < GRID_SIZE * GRID_SIZE →
        (hintStep st idx rr rc).gamePhase = GamePhase.placing) ∧
    (∀ st', Step st st' → st'.correctTilesCount < GRID_SIZE * GRID_SIZE →
        st'.gamePhase = GamePhase.placing) := by
  have hne : unsolvedCells st.boardState ≠ [] := by
    apply unsolved_ne_nil
    rw [CounterOk] at hcount
    omega
  have hprog := handleHint_progress st idx hphase hne
  have hph1 : (handleHint st idx).1.gamePhase = GamePhase.placing := by
    rw [handleHint_phase]; exact hphase
  have hts := checkPhaseTransition_spec (handleHint st idx).1 rr rc
  refine ⟨?_, ?_, ?_, ?_⟩
  · simp only [hintStep]
    rw [hts.1, hprog]
  · simp only [hintStep]
    rw [hts.2]
    constructor
    · intro h
      by_cases hcond : (handleHint st idx).1.gamePhase = GamePhase.placing ∧
          (handleHint st idx).1.correctTilesCount = GRID_SIZE * GRID_SIZE ∧
          0 < (handleHint st idx).1.correctTilesCount
      · rw [← hprog]
        exact hcond.2.1
      · rw [if_neg hcond, hph1] at h
        exact absurd h (by simp)
    · intro h81
      rw [if_pos ⟨hph1, hprog.trans h81, by rw [hprog]; omega⟩]
  · intro hlt1
    have hcond : ¬((handleHint st idx).1.gamePhase = GamePhase.placing ∧
        (handleHint st idx).1.correctTilesCount = GRID_SIZE * GRID_SIZE ∧
        0 < (handleHint st idx).1.correctTilesCount) := by
      intro hc
      have h2 := hc.2.1
      rw [hprog] at h2
      omega
    simp only [hintStep]
    rw [hts.2, if_neg hcond]
    exact hph1
  · intro st' hstep hlt'
    cases hstep with
    | dragStart t hmem2 =>
      exact hphase
    | drop row col =>
      rw [handleDrop_phase]
      exact hphase
    | tileReturn t row col hcell =>
      rw [handleTileReturn_phase]
      exact hphase
    | hint idx2 =>
      rw [handleHint_phase]
      exact hphase
    | submitCode =>
      unfold handleFinalCodeSubmit
      rw [hans, answerMatches_none]
      simp only [Bool.false_eq_true, if_false]
      exact hphase
    | phaseTransition rr2 rc2 =>
      by_cases hcond : st.gamePhase = GamePhase.placing ∧
          st.correctTilesCount = GRID_SIZE * GRID_SIZE ∧
          0 < st.correctTilesCount
      · unfold checkPhaseTransition at hlt' ⊢
        rw [if_pos hcond] at hlt' ⊢
        simp only at hlt'
        have h81 := hcond.2.1
        omega
      · unfold checkPhaseTransition
        rw [if_neg hcond]
        exact hphase

theorem hint_progress_spec_witness :
    CounterOk almostDone ∧
    almostDone.correctTilesCount < GRID_SIZE * GRID_SIZE ∧
    almostDone.finalCodeAnswer = none ∧
    (hintStep almostDone 0 0 0).correctTilesCount = 81 ∧
    (hintStep almostDone 0 0 0).gamePhase = GamePhase.final_challenge := by
  have h := hint_progress_spec almostDone 0 0 0 rfl (by decide) rfl (by decide)
  exact ⟨by decide, by decide, rfl, h.1.trans (by decide), h.2.1.mpr (by decide)⟩

theorem hint_spec_witness :
    hintExample.gamePhase = GamePhase.placing ∧
    unsolvedCells hintExample.boardState ≠ [] ∧
    (unsolvedCells hintExample.boardState).getD
        (0 % (unsolvedCells hintExample.boardState).length) (0, 0) = (0, 0) ∧
    (handleHint hintExample 0).1.boardState 0 0 =
      ⟨some ⟨hintExample.solution 0 0, calculateBase (hintExample.solution 0 0)⟩,
       Status.correct, true⟩ ∧
    (handleHint hintExample 0).1.correctTilesCount =
      hintExample.correctTilesCount + 1 := by
  have h := ((hint_spec hintExample 0 rfl).2 0 0 (by decide) (by decide))
  exact ⟨rfl, by decide, by decide, h.1, h.2.1⟩

section Counting

theorem mem_cellsWhere (b : Board) (p : BoardCell → Prop) [DecidablePred p]
    (q : Fin GRID_SIZE × Fin GRID_SIZE) :
    q ∈ cellsWhere b p ↔ p (b q.1 q.2) := by
  simp [cellsWhere]

theorem cellsWhere_setCell (b : Board) (r c : Fin GRID_SIZE) (cell : BoardCell)
    (p : BoardCell → Prop) [DecidablePred p] :
    cellsWhere (setCell b r c cell) p =
      if p cell then insert (r, c) ((cellsWhere b p).erase (r, c))
      else (cellsWhere b p).erase (r, c) := by
  ext ⟨i, j⟩
  by_cases hij : i = r ∧ j = c
  · rcases hij with ⟨rfl, rfl⟩
    by_cases hp : p cell <;> simp [cellsWhere, setCell, hp]
  · have hne : ¬((i, j) = ((r, c) : Fin GRID_SIZE × Fin GRID_SIZE)) := by
      simp only [Prod.mk.injEq]
      exact hij
    by_cases hp : p cell <;>
      simp [cellsWhere, setCell, hp, hij, hne, Finset.mem_insert, Finset.mem_erase]

theorem card_cellsWhere_setCell_not_mem (b : Board) (r c : Fin GRID_SIZE)
    (cell : BoardCell) (p : BoardCell → Prop) [DecidablePred p]
    (hold : ¬ p (b r c)) :
    (cellsWhere (setCell b r c cell) p).card =
      if p cell then (cellsWhere b p).card + 1 else (cellsWhere b p).card := by
  have hnotmem : (r, c) ∉ cellsWhere b p := by
    rw [mem_cellsWhere]
    exact hold
  rw [cellsWhere_setCell, Finset.erase_eq_of_not_mem hnotmem]
  by_cases hp : p cell
  · rw [if_pos hp, if_pos hp, Finset.card_insert_of_not_mem hnotmem]
  · rw [if_neg hp, if_neg hp]

theorem card_cellsWhere_setCell_mem (b : Board) (r c : Fin GRID_SIZE)
    (cell : BoardCell) (p : BoardCell → Prop) [DecidablePred p]
    (hold : p (b r c)) :
    (cellsWhere (setCell b r c cell) p).card =
      if p cell then (cellsWhere b p).card else (cellsWhere b p).card - 1 := by
  have hmem : (r, c) ∈ cellsWhere b p := by
    rw [mem_cellsWhere]
    exact hold
  have hpos : 0 < (cellsWhere b p).card := Finset.card_pos.mpr ⟨(r, c), hmem⟩
  rw [cellsWhere_setCell]
  by_cases hp : p cell
  · rw [if_pos hp, if_pos hp,
      Finset.card_insert_of_not_mem (Finset.not_mem_erase _ _),
      Finset.card_erase_of_mem hmem]
    omega
  · rw [if_neg hp, if_neg hp, Finset.card_erase_of_mem hmem]

theorem paletteCount_append (l1 l2 : List TileData) (v : Int) :
    paletteCount (l1 ++ l2) v = paletteCount l1 v + paletteCount l2 v :=
  List.countP_append _ _ _

theorem paletteCount_singleton (t : TileData) (v : Int) :
    paletteCount [t] v = if t.value = v then 1 else 0 := by
  simp [paletteCount, List.countP_cons]

theorem paletteCount_nil (v : Int) : paletteCount [] v = 0 := rfl

theorem paletteCount_filter (l : List TileData) (v0 v : Int) :
    paletteCount (l.filter (fun t => decide (t.value ≠ v0))) v =
      if v = v0 then 0 else paletteCount l v := by
  by_cases hvv : v = v0
  · subst hvv
    rw [if_pos rfl]
    rw [paletteCount, List.countP_eq_zero]
    intro a ha
    have hne := List.of_mem_filter ha
    simp only [decide_eq_true_eq] at hne
    simp only [decide_eq_true_eq]
    exact hne
  · rw [if_neg hvv]
    induction l with
    | nil => rfl
    | cons t l ih =>
      by_cases h0 : t.value = v0
      · rw [List.filter_cons_of_neg (by simp [h0]), ih]
        have hnv : t.value ≠ v := by rw [h0]; exact fun h => hvv h.symm
        simp [paletteCount, List.countP_cons, hnv]
      · rw [List.filter_cons_of_pos (by simp [h0])]
        rw [paletteCount, paletteCount, List.countP_cons, List.countP_cons]
        rw [paletteCount, paletteCount] at ih
        omega

theorem paletteCount_pos_of_mem (l : List TileData) (t : TileData)
    (hmem : t ∈ l) : 0 < paletteCount l t.value := by
  rw [paletteCount, List.countP_pos]
  exact ⟨t, hmem, by simp⟩

theorem findCellWithValue_some (b : Board) (v : Int)
    (p : Fin GRID_SIZE × Fin GRID_SIZE)
    (h : findCellWithValue b v = some p) :
    (b p.1 p.2).tile.map TileData.value = some v := by
  have := List.find?_some h
  simpa using this

theorem findCellWithValue_none (b : Board) (v : Int)
    (h : findCellWithValue b v = none) (q : Fin GRID_SIZE × Fin GRID_SIZE) :
    (b q.1 q.2).tile.map TileData.value ≠ some v := by
  have := List.find?_eq_none.mp h q (mem_allCells q)
  simpa using this

end Counting

section OpCases

theorem handleDrop_accept (st : GameState) (t : TileData) (row col : Fin GRID_SIZE)
    (hphase : st.gamePhase = GamePhase.placing)
    (hdrag : st.draggedTile = some t)
    (hempty : (st.boardState row col).tile = none)
    (hbase : t.base = (col.val : Int) + 1)
    (hseq : isSequenceValid st.boardState t row col = true) :
    handleDrop st row col =
      ({ st with
          boardState := setCell st.boardState row col
            ⟨some t,
             if st.solution row col = t.value then Status.correct
             else Status.incorrect, false⟩,
          paletteTiles :=
            st.paletteTiles.filter (fun u => decide (u.value ≠ t.value)),
          correctTilesCount :=
            if st.solution row col = t.value then st.correctTilesCount + 1
            else st.correctTilesCount,
          draggedTile := none },
       [if st.solution row col = t.value then SoundType.correct
        else SoundType.incorrect]) := by
  simp only [handleDrop, hphase, hdrag, hempty, hbase, hseq]
  simp

theorem handleDrop_cases (st : GameState) (row col : Fin GRID_SIZE) :
    (handleDrop st row col).1 = st ∨
    ∃ t : TileData, st.gamePhase = GamePhase.placing ∧ st.draggedTile = some t ∧
      (st.boardState row col).tile = none ∧ t.base = (col.val : Int) + 1 ∧
      isSequenceValid st.boardState t row col = true := by
  by_cases hphase : st.gamePhase = GamePhase.placing
  · cases hdrag : st.draggedTile with
    | none => left; simp [handleDrop, hphase, hdrag]
    | some t =>
      by_cases hocc : (st.boardState row col).tile.isSome
      · left; simp [handleDrop, hphase, hdrag, hocc]
      · have hempty : (st.boardState row col).tile = none :=
          Option.not_isSome_iff_eq_none.mp hocc
        by_cases hbase : t.base = (col.val : Int) + 1
        · by_cases hseq : isSequenceValid st.boardState t row col
          · right; exact ⟨t, hphase, rfl, hempty, hbase, hseq⟩
          · left; simp [handleDrop, hphase, hdrag, hocc, hbase, hseq]
        · left; simp [handleDrop, hphase, hdrag, hocc, hbase]
  · left; simp [handleDrop, hphase]

theorem handleTileReturn_cases (st : GameState) (t : TileData)
    (row col : Fin GRID_SIZE) :
    (handleTileReturn st t row col).1 = st ∨
    (st.gamePhase = GamePhase.placing ∧
     (st.boardState row col).status ≠ Status.correct ∧
     handleTileReturn st t row col =
       ({ st with
           boardState := setCell st.boardState row col emptyCell,
           paletteTiles := st.paletteTiles ++ [t] },
        [SoundType.tileReturn])) := by
  by_cases hphase : st.gamePhase = GamePhase.placing
  · by_cases hcorr : (st.boardState row col).status = Status.correct
    · left; simp [handleTileReturn, hphase, hcorr]
    · by_cases hdep : hasDependentTile st.boardState row col
      · left; simp [handleTileReturn, hphase, hcorr, hdep]
      · right
        refine ⟨hphase, hcorr, ?_⟩
        simp [handleTileReturn, hphase, hcorr, hdep]
  · left; simp [handleTileReturn, hphase]

theorem handleHint_cases (st : GameState) (idx : Nat) :
    (handleHint st idx).1 = st ∨
    (st.gamePhase = GamePhase.placing ∧ unsolvedCells st.boardState ≠ []) := by
  by_cases hphase : st.gamePhase = GamePhase.placing
  · by_cases hemp : (unsolvedCells st.boardState).isEmpty
    · left
      simp only [handleHint, hphase]
      simp [hemp]
    · right
      exact ⟨hphase, by simpa [List.isEmpty_iff] using hemp⟩
  · left; simp [handleHint, hphase]

end OpCases

section InvPreservation

theorem inv_initial (sol : Solution) (pal : List TileData)
    (hsol : SolutionValid sol) (hpal : PaletteInit pal) :
    Inv (initialState sol pal) := by
  refine ⟨hsol, ?_, ?_, ?_, fun _ => rfl⟩
  · intro v h1 h81
    left
    constructor
    · obtain ⟨k, hk⟩ : ∃ k : Fin 81, ((k.val : Int) + 1) = v := by
        refine ⟨⟨(v - 1).toNat, by omega⟩, ?_⟩
        simp only []
        omega
      rw [← hk]
      exact hpal k
    · simp [boardCount, cellsWhere, initialState, emptyCell]
  · intro r c
    simp [initialState, emptyCell]
  · simp [CounterOk, countCorrect, cellsWhere, initialState, emptyCell]

theorem inv_submit (st : GameState) (hinv : Inv st) :
    Inv (handleFinalCodeSubmit st).1 := by
  obtain ⟨h1, h2, h3, h4, h5⟩ := hinv
  unfold handleFinalCodeSubmit
  split
  · exact ⟨h1, h2, h3, h4, fun hph => by simp at hph⟩
  · exact ⟨h1, h2, h3, h4, fun hph => h5 hph⟩

theorem inv_transition (st : GameState) (rr rc : Fin GRID_SIZE) (hinv : Inv st) :
    Inv (checkPhaseTransition st rr rc).1 := by
  obtain ⟨h1, h2, h3, h4, h5⟩ := hinv
  unfold checkPhaseTransition
  split
  · exact ⟨h1, h2, h3, h4, fun hph => by simp at hph⟩
  · exact ⟨h1, h2, h3, h4, h5⟩

theorem inv_return (st : GameState) (t : TileData) (row col : Fin GRID_SIZE)
    (hinv : Inv st) (hcell : (st.boardState row col).tile = some t) :
    Inv (handleTileReturn st t row col).1 := by
  obtain ⟨hsol, hown, hsc, hcnt, hans⟩ := hinv
  rcases handleTileReturn_cases st t row col with heq | ⟨hphase, hncorr, heq⟩
  · rw [heq]
    exact ⟨hsol, hown, hsc, hcnt, hans⟩
  · rw [heq]
    have hmap : (st.boardState row col).tile.map TileData.value = some t.value := by
      rw [hcell]
      rfl
    refine ⟨hsol, ?_, ?_, ?_, fun hph => hans hph⟩
    · intro v h1 h81
      by_cases hv : v = t.value
      · subst hv
        have hbmem : ((row, col) : Fin GRID_SIZE × Fin GRID_SIZE) ∈
            cellsWhere st.boardState
              (fun cell => cell.tile.map TileData.value = some t.value) := by
          rw [mem_cellsWhere]
          exact hmap
        have hbpos : 0 < boardCount st.boardState t.value :=
          Finset.card_pos.mpr ⟨_, hbmem⟩
        rcases hown t.value h1 h81 with ⟨hp, hb⟩ | ⟨hp, hb⟩
        · rw [boardCount] at hbpos
          rw [boardCount] at hb
          omega
        · left
          constructor
          · show paletteCount (st.paletteTiles ++ [t]) t.value = 1
            rw [paletteCount_append, paletteCount_singleton, hp, if_pos rfl]
          · show boardCount (setCell st.boardState row col emptyCell) t.value = 0
            rw [boardCount, card_cellsWhere_setCell_mem _ _ _ _ _ hmap]
            rw [if_neg (by simp [emptyCell])]
            rw [boardCount] at hb
            omega
      · have hpal : paletteCount (st.paletteTiles ++ [t]) v =
            paletteCount st.paletteTiles v := by
          rw [paletteCount_append, paletteCount_singleton,
            if_neg (fun h => hv h.symm)]
          omega
        have hbrd : boardCount (setCell st.boardState row col emptyCell) v =
            boardCount st.boardState v := by
          rw [boardCount, card_cellsWhere_setCell_not_mem _ _ _ _ _
            (by rw [hmap]; simp only [Option.some.injEq]; exact fun h => hv h.symm)]
          rw [if_neg (by simp [emptyCell])]
          rfl
        rcases hown v h1 h81 with ⟨hp, hb⟩ | ⟨hp, hb⟩
        · left
          exact ⟨by rw [hpal]; exact hp, by rw [hbrd]; exact hb⟩
        · right
          exact ⟨by rw [hpal]; exact hp, by rw [hbrd]; exact hb⟩
    · intro r c
      show ((setCell st.boardState row col emptyCell r c).status = Status.correct ↔
          (setCell st.boardState row col emptyCell r c).tile.map TileData.value =
            some (st.solution r c)) ∧
        ((setCell st.boardState row col emptyCell r c).status = Status.empty ↔
          (setCell st.boardState row col emptyCell r c).tile = none)
      by_cases hrc : r = row ∧ c = col
      · rcases hrc with ⟨rfl, rfl⟩
        rw [setCell_self]
        simp [emptyCell]
      · rw [setCell_ne _ _ _ _ _ _ hrc]
        exact hsc r c
    · show st.correctTilesCount = countCorrect (setCell st.boardState row col emptyCell)
      rw [countCorrect, card_cellsWhere_setCell_not_mem _ _ _ _ _ hncorr]
      rw [if_neg (by simp [emptyCell])]
      exact hcnt

theorem inv_drop (st : GameState) (t : TileData) (row col : Fin GRID_SIZE)
    (hinv : Inv st) (hmem : t ∈ st.paletteTiles) :
    Inv (handleDrop { st with draggedTile := some t } row col).1 := by
  obtain ⟨hsol, hown, hsc, hcnt, hans⟩ := hinv
  rcases handleDrop_cases { st with draggedTile := some t } row col with
    heq | ⟨t2, hphase, hdrag, hempty, hbase, hseq⟩
  · rw [heq]
    exact ⟨hsol, hown, hsc, hcnt, hans⟩
  · obtain rfl : t = t2 := Option.some.inj hdrag
    rw [handleDrop_accept _ t row col hphase hdrag hempty hbase hseq]
    have hempty2 : (st.boardState row col).tile = none := hempty
    refine ⟨hsol, ?_, ?_, ?_, fun hph => hans hph⟩
    · intro v h1 h81
      have hold : ¬ ((st.boardState row col).tile.map TileData.value = some v) := by
        rw [hempty2]
        simp
      by_cases hv : v = t.value
      · subst hv
        have hppos : 0 < paletteCount st.paletteTiles t.value :=
          paletteCount_pos_of_mem _ _ hmem
        rcases hown t.value h1 h81 with ⟨hp, hb⟩ | ⟨hp, hb⟩
        · right
          constructor
          · show paletteCount
              (st.paletteTiles.filter (fun u => decide (u.value ≠ t.value)))
              t.value = 0
            rw [paletteCount_filter, if_pos rfl]
          · show boardCount (setCell st.boardState row col
              ⟨some t,
               if st.solution row col = t.value then Status.correct
               else Status.incorrect, false⟩) t.value = 1
            rw [boardCount, card_cellsWhere_setCell_not_mem _ _ _ _ _ hold]
            rw [boardCount] at hb
            simp only [Option.map_some', Option.some.injEq, eq_self_iff_true,
              if_true]
            omega
        · omega
      · have hpal : paletteCount
            (st.paletteTiles.filter (fun u => decide (u.value ≠ t.value))) v =
            paletteCount st.paletteTiles v := by
          rw [paletteCount_filter, if_neg hv]
        have hbrd : boardCount (setCell st.boardState row col
            ⟨some t,
             if st.solution row col = t.value then Status.correct
             else Status.incorrect, false⟩) v = boardCount st.boardState v := by
          rw [boardCount, card_cellsWhere_setCell_not_mem _ _ _ _ _ hold]
          rw [if_neg (by simp only [Option.map_some', Option.some.injEq]; exact fun h => hv h.symm)]
          rfl
        rcases hown v h1 h81 with ⟨hp, hb⟩ | ⟨hp, hb⟩
        · left
          exact ⟨by rw [hpal]; exact hp, by rw [hbrd]; exact hb⟩
        · right
          exact ⟨by rw [hpal]; exact hp, by rw [hbrd]; exact hb⟩
    · intro r c
      show (((setCell st.boardState row col
          ⟨some t,
           if st.solution row col = t.value then Status.correct
           else Status.incorrect, false⟩) r c).status = Status.correct ↔
          ((setCell st.boardState row col
          ⟨some t,
           if st.solution row col = t.value then Status.correct
           else Status.incorrect, false⟩) r c).tile.map TileData.value =
            some (st.solution r c)) ∧
        (((setCell st.boardState row col
          ⟨some t,
           if st.solution row col = t.value then Status.correct
           else Status.incorrect, false⟩) r c).status = Status.empty ↔
          ((setCell st.boardState row col
          ⟨some t,
           if st.solution row col = t.value then Status.correct
           else Status.incorrect, false⟩) r c).tile = none)
      by_cases hrc : r = row ∧ c = col
      · rcases hrc with ⟨rfl, rfl⟩
        rw [setCell_self]
        by_cases hsolv : st.solution r c = t.value
        · simp [hsolv]
        · constructor
          · simp only [Option.map_some', Option.some.injEq]
            rw [if_neg hsolv]
            constructor
            · intro h
              exact absurd h (by decide)
            · intro h
              exact absurd h (fun hh => hsolv hh.symm)
          · rw [if_neg hsolv]
            simp
      · rw [setCell_ne _ _ _ _ _ _ hrc]
        exact hsc r c
    · have hstatus : (st.boardState row col).status = Status.empty :=
        (hsc row col).2.mpr hempty2
      have hnc : ¬ ((st.boardState row col).status = Status.correct) := by
        simp [hstatus]
      show (if st.solution row col = t.value then st.correctTilesCount + 1
            else st.correctTilesCount) =
          countCorrect (setCell st.boardState row col
            ⟨some t,
             if st.solution row col = t.value then Status.correct
             else Status.incorrect, false⟩)
      rw [countCorrect, card_cellsWhere_setCell_not_mem _ _ _ _ _ hnc]
      by_cases hsolv : st.solution row col = t.value
      · rw [if_pos hsolv, if_pos (by rw [if_pos hsolv]), hcnt]
        rfl
      · rw [if_neg hsolv, if_neg (by rw [if_neg hsolv]; simp), hcnt]
        rfl

theorem inv_hint (st : GameState) (idx : Nat) (hinv : Inv st) :
    Inv (handleHint st idx).1 := by
  obtain ⟨hsol, hown, hsc, hcnt, hans⟩ := hinv
  rcases handleHint_cases st idx with heq | ⟨hphase, hne⟩
  · rw [heq]
    exact ⟨hsol, hown, hsc, hcnt, hans⟩
  rcases hpick : (unsolvedCells st.boardState).getD
      (idx % (unsolvedCells st.boardState).length) (0, 0) with ⟨hr, hc⟩
  have hmem : ((hr, hc) : Fin GRID_SIZE × Fin GRID_SIZE) ∈
      unsolvedCells st.boardState := by
    rw [← hpick]
    exact getD_mod_mem _ _ _ hne
  have hstat : (st.boardState hr hc).status ≠ Status.correct :=
    (mem_unsolvedCells _ _).mp hmem
  have htargetne : (st.boardState hr hc).tile.map TileData.value ≠
      some (st.solution hr hc) := by
    intro hcontra
    exact hstat ((hsc hr hc).1.mpr hcontra)
  have hpalApp : ∀ v : Int,
      paletteCount (st.paletteTiles ++ (st.boardState hr hc).tile.toList) v =
        paletteCount st.paletteTiles v +
        (if (st.boardState hr hc).tile.map TileData.value = some v then 1
         else 0) := by
    intro v
    cases htile : (st.boardState hr hc).tile with
    | none => simp [paletteCount_append, paletteCount_nil]
    | some tw =>
      simp only [Option.toList_some, Option.map_some', Option.some.injEq]
      rw [paletteCount_append, paletteCount_singleton]
  cases hfind : findCellWithValue st.boardState (st.solution hr hc) with
  | some p =>
    have hpmap : (st.boardState p.1 p.2).tile.map TileData.value =
        some (st.solution hr hc) := findCellWithValue_some _ _ _ hfind
    have hpne : ¬(hr = p.1 ∧ hc = p.2) := by
      intro hcontra
      rw [← hcontra.1, ← hcontra.2] at hpmap
      exact htargetne hpmap
    have hpstat : (st.boardState p.1 p.2).status ≠ Status.correct := by
      intro hcontra
      have h2 := (hsc p.1 p.2).1.mp hcontra
      rw [hpmap] at h2
      exact hpne (hsol.2 hr hc p.1 p.2 (Option.some.inj h2))
    have hinner : (setCell st.boardState p.1 p.2 emptyCell) hr hc =
        st.boardState hr hc := setCell_ne _ _ _ _ _ _ hpne
    rw [handleHint_found st idx hr hc p hphase hne hpick hfind]
    refine ⟨hsol, ?_, ?_, ?_, fun hph => hans hph⟩
    · intro v h1 h81
      by_cases hv : v = st.solution hr hc
      · have hbmem : p ∈ cellsWhere st.boardState
            (fun cell => cell.tile.map TileData.value = some v) := by
          rw [mem_cellsWhere, hv]
          exact hpmap
        have hbpos : 0 < boardCount st.boardState v :=
          Finset.card_pos.mpr ⟨p, hbmem⟩
        rcases hown v h1 h81 with ⟨hp0, hb0⟩ | ⟨hp0, hb1⟩
        · rw [boardCount] at hbpos hb0
          omega
        · right
          constructor
          · show paletteCount
              (st.paletteTiles ++ (st.boardState hr hc).tile.toList) v = 0
            rw [hpalApp v, hp0, if_neg (by rw [hv]; exact htargetne)]
          · show boardCount (setCell (setCell st.boardState p.1 p.2 emptyCell)
              hr hc
              ⟨some ⟨st.solution hr hc, calculateBase (st.solution hr hc)⟩,
               Status.correct, true⟩) v = 1
            rw [boardCount, card_cellsWhere_setCell_not_mem _ _ _ _ _
              (by rw [hinner, hv]; exact htargetne)]
            rw [if_pos (by rw [hv]; rfl)]
            rw [card_cellsWhere_setCell_mem _ _ _ _ _ (by rw [hv]; exact hpmap)]
            rw [if_neg (by simp [emptyCell])]
            rw [boardCount] at hb1
            omega
      · by_cases hvt : (st.boardState hr hc).tile.map TileData.value = some v
        · have hbmem : ((hr, hc) : Fin GRID_SIZE × Fin GRID_SIZE) ∈
              cellsWhere st.boardState
                (fun cell => cell.tile.map TileData.value = some v) := by
            rw [mem_cellsWhere]
            exact hvt
          have hbpos : 0 < boardCount st.boardState v :=
            Finset.card_pos.mpr ⟨_, hbmem⟩
          rcases hown v h1 h81 with ⟨hp0, hb0⟩ | ⟨hp0, hb1⟩
          · rw [boardCount] at hbpos hb0
            omega
          · left
            constructor
            · show paletteCount
                (st.paletteTiles ++ (st.boardState hr hc).tile.toList) v = 1
              rw [hpalApp v, hp0, if_pos hvt]
            · show boardCount (setCell (setCell st.boardState p.1 p.2 emptyCell)
                hr hc
                ⟨some ⟨st.solution hr hc, calculateBase (st.solution hr hc)⟩,
                 Status.correct, true⟩) v = 0
              rw [boardCount, card_cellsWhere_setCell_mem _ _ _ _ _
                (by rw [hinner]; exact hvt)]
              rw [if_neg (by
                simp only [Option.map_some', Option.some.injEq]
                exact fun h => hv h.symm)]
              rw [card_cellsWhere_setCell_not_mem _ _ _ _ _ (by
                rw [hpmap]
                simp only [Option.some.injEq]
                exact fun h => hv (h.symm))]
              rw [if_neg (by simp [emptyCell])]
              rw [boardCount] at hb1
              omega
        · have hpal2 : paletteCount
              (st.paletteTiles ++ (st.boardState hr hc).tile.toList) v =
              paletteCount st.paletteTiles v := by
            rw [hpalApp v, if_neg hvt]
            omega
          have hbrd2 : boardCount (setCell (setCell st.boardState p.1 p.2
              emptyCell) hr hc
              ⟨some ⟨st.solution hr hc, calculateBase (st.solution hr hc)⟩,
               Status.correct, true⟩) v = boardCount st.boardState v := by
            rw [boardCount, card_cellsWhere_setCell_not_mem _ _ _ _ _
              (by rw [hinner]; exact hvt)]
            rw [if_neg (by
              simp only [Option.map_some', Option.some.injEq]
              exact fun h => hv h.symm)]
            rw [card_cellsWhere_setCell_not_mem _ _ _ _ _ (by
              rw [hpmap]
              simp only [Option.some.injEq]
              exact fun h => hv (h.symm))]
            rw [if_neg (by simp [emptyCell])]
            rfl
          rcases hown v h1 h81 with ⟨hp0, hb0⟩ | ⟨hp0, hb1⟩
          · left
            exact ⟨by rw [hpal2]; exact hp0, by rw [hbrd2]; exact hb0⟩
          · right
            exact ⟨by rw [hpal2]; exact hp0, by rw [hbrd2]; exact hb1⟩
    · intro r c
      show (((setCell (setCell st.boardState p.1 p.2 emptyCell) hr hc
          ⟨some ⟨st.solution hr hc, calculateBase (st.solution hr hc)⟩,
           Status.correct, true⟩) r c).status = Status.correct ↔
          ((setCell (setCell st.boardState p.1 p.2 emptyCell) hr hc
          ⟨some ⟨st.solution hr hc, calculateBase (st.solution hr hc)⟩,
           Status.correct, true⟩) r c).tile.map TileData.value =
            some (st.solution r c)) ∧
        (((setCell (setCell st.boardState p.1 p.2 emptyCell) hr hc
          ⟨some ⟨st.solution hr hc, calculateBase (st.solution hr hc)⟩,
           Status.correct, true⟩) r c).status = Status.empty ↔
          ((setCell (setCell st.boardState p.1 p.2 emptyCell) hr hc
          ⟨some ⟨st.solution hr hc, calculateBase (st.solution hr hc)⟩,
           Status.correct, true⟩) r c).tile = none)
      by_cases hrc : r = hr ∧ c = hc
      · rcases hrc with ⟨rfl, rfl⟩
        rw [setCell_self]
        simp
      · rw [setCell_ne _ _ _ _ _ _ hrc]
        by_cases hrp : r = p.1 ∧ c = p.2
        · rcases hrp with ⟨rfl, rfl⟩
          rw [setCell_self]
          simp [emptyCell]
        · rw [setCell_ne _ _ _ _ _ _ hrp]
          exact hsc r c
    · show (if (setCell st.boardState p.1 p.2 emptyCell hr hc).status ≠
            Status.correct
          then st.correctTilesCount + 1 else st.correctTilesCount) =
        countCorrect (setCell (setCell st.boardState p.1 p.2 emptyCell) hr hc
          ⟨some ⟨st.solution hr hc, calculateBase (st.solution hr hc)⟩,
           Status.correct, true⟩)
      rw [hinner, if_pos hstat]
      rw [countCorrect, card_cellsWhere_setCell_not_mem _ _ _ _ _
        (by rw [hinner]; exact hstat)]
      rw [if_pos rfl]
      rw [card_cellsWhere_setCell_not_mem _ _ _ _ _ hpstat]
      rw [if_neg (by simp [emptyCell])]
      rw [hcnt, countCorrect]
  | none =>
    have hnone : ∀ q : Fin GRID_SIZE × Fin GRID_SIZE,
        (st.boardState q.1 q.2).tile.map TileData.value ≠
          some (st.solution hr hc) :=
      fun q => findCellWithValue_none _ _ hfind q
    rw [handleHint_notfound st idx hr hc hphase hne hpick hfind]
    refine ⟨hsol, ?_, ?_, ?_, fun hph => hans hph⟩
    · intro v h1 h81
      by_cases hv : v = st.solution hr hc
      · have hbzero : boardCount st.boardState v = 0 := by
          rw [boardCount, Finset.card_eq_zero]
          ext q
          simp only [mem_cellsWhere, Finset.not_mem_empty, iff_false]
          rw [hv]
          exact hnone q
        rcases hown v h1 h81 with ⟨hp1, hb0⟩ | ⟨hp0, hb1⟩
        · right
          constructor
          · show paletteCount
              ((st.paletteTiles ++ (st.boardState hr hc).tile.toList).filter
                (fun t => decide (t.value ≠ st.solution hr hc))) v = 0
            rw [paletteCount_filter, if_pos hv]
          · show boardCount (setCell st.boardState hr hc
              ⟨some ⟨st.solution hr hc, calculateBase (st.solution hr hc)⟩,
               Status.correct, true⟩) v = 1
            rw [boardCount, card_cellsWhere_setCell_not_mem _ _ _ _ _
              (by rw [hv]; exact htargetne)]
            rw [if_pos (by rw [hv]; rfl)]
            rw [boardCount] at hbzero
            omega
        · rw [boardCount] at hb1 hbzero
          omega
      · by_cases hvt : (st.boardState hr hc).tile.map TileData.value = some v
        · have hbmem : ((hr, hc) : Fin GRID_SIZE × Fin GRID_SIZE) ∈
              cellsWhere st.boardState
                (fun cell => cell.tile.map TileData.value = some v) := by
            rw [mem_cellsWhere]
            exact hvt
          have hbpos : 0 < boardCount st.boardState v :=
            Finset.card_pos.mpr ⟨_, hbmem⟩
          rcases hown v h1 h81 with ⟨hp0, hb0⟩ | ⟨hp0, hb1⟩
          · rw [boardCount] at hbpos hb0
            omega
          · left
            constructor
            · show paletteCount
                ((st.paletteTiles ++ (st.boardState hr hc).tile.toList).filter
                  (fun t => decide (t.value ≠ st.solution hr hc))) v = 1
              rw [paletteCount_filter, if_neg hv, hpalApp v, hp0, if_pos hvt]
            · show boardCount (setCell st.boardState hr hc
                ⟨some ⟨st.solution hr hc, calculateBase (st.solution hr hc)⟩,
                 Status.correct, true⟩) v = 0
              rw [boardCount, card_cellsWhere_setCell_mem _ _ _ _ _ hvt]
              rw [if_neg (by
                simp only [Option.map_some', Option.some.injEq]
                exact fun h => hv h.symm)]
              rw [boardCount] at hb1
              omega
        · have hpal2 : paletteCount
              ((st.paletteTiles ++ (st.boardState hr hc).tile.toList).filter
                (fun t => decide (t.value ≠ st.solution hr hc))) v =
              paletteCount st.paletteTiles v := by
            rw [paletteCount_filter, if_neg hv, hpalApp v, if_neg hvt]
            omega
          have hbrd2 : boardCount (setCell st.boardState hr hc
              ⟨some ⟨st.solution hr hc, calculateBase (st.solution hr hc)⟩,
               Status.correct, true⟩) v = boardCount st.boardState v := by
            rw [boardCount, card_cellsWhere_setCell_not_mem _ _ _ _ _ hvt]
            rw [if_neg (by
              simp only [Option.map_some', Option.some.injEq]
              exact fun h => hv h.symm)]
            rfl
          rcases hown v h1 h81 with ⟨hp0, hb0⟩ | ⟨hp0, hb1⟩
          · left
            exact ⟨by rw [hpal2]; exact hp0, by rw [hbrd2]; exact hb0⟩
          · right
            exact ⟨by rw [hpal2]; exact hp0, by rw [hbrd2]; exact hb1⟩
    · intro r c
      show (((setCell st.boardState hr hc
          ⟨some ⟨st.solution hr hc, calculateBase (st.solution hr hc)⟩,
           Status.correct, true⟩) r c).status = Status.correct ↔
          ((setCell st.boardState hr hc
          ⟨some ⟨st.solution hr hc, calculateBase (st.solution hr hc)⟩,
           Status.correct, true⟩) r c).tile.map TileData.value =
            some (st.solution r c)) ∧
        (((setCell st.boardState hr hc
          ⟨some ⟨st.solution hr hc, calculateBase (st.solution hr hc)⟩,
           Status.correct, true⟩) r c).status = Status.empty ↔
          ((setCell st.boardState hr hc
          ⟨some ⟨st.solution hr hc, calculateBase (st.solution hr hc)⟩,
           Status.correct, true⟩) r c).tile = none)
      by_cases hrc : r = hr ∧ c = hc
      · rcases hrc with ⟨rfl, rfl⟩
        rw [setCell_self]
        simp
      · rw [setCell_ne _ _ _ _ _ _ hrc]
        exact hsc r c
    · show (if (st.boardState hr hc).status ≠ Status.correct
          then st.correctTilesCount + 1 else st.correctTilesCount) =
        countCorrect (setCell st.boardState hr hc
          ⟨some ⟨st.solution hr hc, calculateBase (st.solution hr hc)⟩,
           Status.correct, true⟩)
      rw [if_pos hstat]
      rw [countCorrect, card_cellsWhere_setCell_not_mem _ _ _ _ _ hstat]
      rw [if_pos rfl]
      rw [hcnt, countCorrect]


theorem winv_initial (sol : Solution) (pal : List TileData)
    (hsol : SolutionValid sol) : WInv (initialState sol pal) := by
  refine ⟨hsol, ?_, ?_, fun _ => rfl⟩
  · intro r c
    simp [initialState, emptyCell]
  · simp [CounterOk, countCorrect, cellsWhere, initialState, emptyCell]

theorem winv_drop (st : GameState) (row col : Fin GRID_SIZE) (hw : WInv st) :
    WInv (handleDrop st row col).1 := by
  obtain ⟨hsol, hsc, hcnt, hans⟩ := hw
  rcases handleDrop_cases st row col with
    heq | ⟨t, hphase, hdrag, hempty, hbase, hseq⟩
  · rw [heq]
    exact ⟨hsol, hsc, hcnt, hans⟩
  · rw [handleDrop_accept st t row col hphase hdrag hempty hbase hseq]
    refine ⟨hsol, ?_, ?_, fun hph => hans hph⟩
    · intro r c
      show (((setCell st.boardState row col
          ⟨some t,
           if st.solution row col = t.value then Status.correct
           else Status.incorrect, false⟩) r c).status = Status.correct ↔
          ((setCell st.boardState row col
          ⟨some t,
           if st.solution row col = t.value then Status.correct
           else Status.incorrect, false⟩) r c).tile.map TileData.value =
            some (st.solution r c)) ∧
        (((setCell st.boardState row col
          ⟨some t,
           if st.solution row col = t.value then Status.correct
           else Status.incorrect, false⟩) r c).status = Status.empty ↔
          ((setCell st.boardState row col
          ⟨some t,
           if st.solution row col = t.value then Status.correct
           else Status.incorrect, false⟩) r c).tile = none)
      by_cases hrc : r = row ∧ c = col
      · rcases hrc with ⟨rfl, rfl⟩
        rw [setCell_self]
        by_cases hsolv : st.solution r c = t.value
        · simp [hsolv]
        · constructor
          · simp only [Option.map_some', Option.some.injEq]
            rw [if_neg hsolv]
            constructor
            · intro h
              exact absurd h (by decide)
            · intro h
              exact absurd h (fun hh => hsolv hh.symm)
          · rw [if_neg hsolv]
            simp
      · rw [setCell_ne _ _ _ _ _ _ hrc]
        exact hsc r c
    · have hstatus : (st.boardState row col).status = Status.empty :=
        (hsc row col).2.mpr hempty
      have hnc : ¬ ((st.boardState row col).status = Status.correct) := by
        simp [hstatus]
      show (if st.solution row col = t.value then st.correctTilesCount + 1
            else st.correctTilesCount) =
          countCorrect (setCell st.boardState row col
            ⟨some t,
             if st.solution row col = t.value then Status.correct
             else Status.incorrect, false⟩)
      rw [countCorrect, card_cellsWhere_setCell_not_mem _ _ _ _ _ hnc]
      by_cases hsolv : st.solution row col = t.value
      · rw [if_pos hsolv, if_pos (by rw [if_pos hsolv]), hcnt]
        rfl
      · rw [if_neg hsolv, if_neg (by rw [if_neg hsolv]; simp), hcnt]
        rfl

theorem winv_return (st : GameState) (t : TileData) (row col : Fin GRID_SIZE)
    (hw : WInv st) : WInv (handleTileReturn st t row col).1 := by
  obtain ⟨hsol, hsc, hcnt, hans⟩ := hw
  rcases handleTileReturn_cases st t row col with heq | ⟨hphase, hncorr, heq⟩
  · rw [heq]
    exact ⟨hsol, hsc, hcnt, hans⟩
  · rw [heq]
    refine ⟨hsol, ?_, ?_, fun hph => hans hph⟩
    · intro r c
      show ((setCell st.boardState row col emptyCell r c).status = Status.correct ↔
          (setCell st.boardState row col emptyCell r c).tile.map TileData.value =
            some (st.solution r c)) ∧
        ((setCell st.boardState row col emptyCell r c).status = Status.empty ↔
          (setCell st.boardState row col emptyCell r c).tile = none)
      by_cases hrc : r = row ∧ c = col
      · rcases hrc with ⟨rfl, rfl⟩
        rw [setCell_self]
        simp [emptyCell]
      · rw [setCell_ne _ _ _ _ _ _ hrc]
        exact hsc r c
    · show st.correctTilesCount = countCorrect (setCell st.boardState row col emptyCell)
      rw [countCorrect, card_cellsWhere_setCell_not_mem _ _ _ _ _ hncorr]
      rw [if_neg (by simp [emptyCell])]
      exact hcnt

theorem winv_hint (st : GameState) (idx : Nat) (hw : WInv st) :
    WInv (handleHint st idx).1 := by
  obtain ⟨hsol, hsc, hcnt, hans⟩ := hw
  rcases handleHint_cases st idx with heq | ⟨hphase, hne⟩
  · rw [heq]
    exact ⟨hsol, hsc, hcnt, hans⟩
  rcases hpick : (unsolvedCells st.boardState).getD
      (idx % (unsolvedCells st.boardState).length) (0, 0) with ⟨hr, hc⟩
  have hmem : ((hr, hc) : Fin GRID_SIZE × Fin GRID_SIZE) ∈
      unsolvedCells st.boardState := by
    rw [← hpick]
    exact getD_mod_mem _ _ _ hne
  have hstat : (st.boardState hr hc).status ≠ Status.correct :=
    (mem_unsolvedCells _ _).mp hmem
  have htargetne : (st.boardState hr hc).tile.map TileData.value ≠
      some (st.solution hr hc) := by
    intro hcontra
    exact hstat ((hsc hr hc).1.mpr hcontra)
  cases hfind : findCellWithValue st.boardState (st.solution hr hc) with
  | some p =>
    have hpmap : (st.boardState p.1 p.2).tile.map TileData.value =
        some (st.solution hr hc) := findCellWithValue_some _ _ _ hfind
    have hpne : ¬(hr = p.1 ∧ hc = p.2) := by
      intro hcontra
      rw [← hcontra.1, ← hcontra.2] at hpmap
      exact htargetne hpmap
    have hpstat : (st.boardState p.1 p.2).status ≠ Status.correct := by
      intro hcontra
      have h2 := (hsc p.1 p.2).1.mp hcontra
      rw [hpmap] at h2
      exact hpne (hsol.2 hr hc p.1 p.2 (Option.some.inj h2))
    have hinner : (setCell st.boardState p.1 p.2 emptyCell) hr hc =
        st.boardState hr hc := setCell_ne _ _ _ _ _ _ hpne
    rw [handleHint_found st idx hr hc p hphase hne hpick hfind]
    refine ⟨hsol, ?_, ?_, fun hph => hans hph⟩
    · intro r c
      show (((setCell (setCell st.boardState p.1 p.2 emptyCell) hr hc
          ⟨some ⟨st.solution hr hc, calculateBase (st.solution hr hc)⟩,
           Status.correct, true⟩) r c).status = Status.correct ↔
          ((setCell (setCell st.boardState p.1 p.2 emptyCell) hr hc
          ⟨some ⟨st.solution hr hc, calculateBase (st.solution hr hc)⟩,
           Status.correct, true⟩) r c).tile.map TileData.value =
            some (st.solution r c)) ∧
        (((setCell (setCell st.boardState p.1 p.2 emptyCell) hr hc
          ⟨some ⟨st.solution hr hc, calculateBase (st.solution hr hc)⟩,
           Status.correct, true⟩) r c).status = Status.empty ↔
          ((setCell (setCell st.boardState p.1 p.2 emptyCell) hr hc
          ⟨some ⟨st.solution hr hc, calculateBase (st.solution hr hc)⟩,
           Status.correct, true⟩) r c).tile = none)
      by_cases hrc : r = hr ∧ c = hc
      · rcases hrc with ⟨rfl, rfl⟩
        rw [setCell_self]
        simp
      · rw [setCell_ne _ _ _ _ _ _ hrc]
        by_cases hrp : r = p.1 ∧ c = p.2
        · rcases hrp with ⟨rfl, rfl⟩
          rw [setCell_self]
          simp [emptyCell]
        · rw [setCell_ne _ _ _ _ _ _ hrp]
          exact hsc r c
    · show (if (setCell st.boardState p.1 p.2 emptyCell hr hc).status ≠
            Status.correct
          then st.correctTilesCount + 1 else st.correctTilesCount) =
        countCorrect (setCell (setCell st.boardState p.1 p.2 emptyCell) hr hc
          ⟨some ⟨st.solution hr hc, calculateBase (st.solution hr hc)⟩,
           Status.correct, true⟩)
      rw [hinner, if_pos hstat]
      rw [countCorrect, card_cellsWhere_setCell_not_mem _ _ _ _ _
        (by rw [hinner]; exact hstat)]
      rw [if_pos rfl]
      rw [card_cellsWhere_setCell_not_mem _ _ _ _ _ hpstat]
      rw [if_neg (by simp [emptyCell])]
      rw [hcnt, countCorrect]
  | none =>
    rw [handleHint_notfound st idx hr hc hphase hne hpick hfind]
    refine ⟨hsol, ?_, ?_, fun hph => hans hph⟩
    · intro r c
      show (((setCell st.boardState hr hc
          ⟨some ⟨st.solution hr hc, calculateBase (st.solution hr hc)⟩,
           Status.correct, true⟩) r c).status = Status.correct ↔
          ((setCell st.boardState hr hc
          ⟨some ⟨st.solution hr hc, calculateBase (st.solution hr hc)⟩,
           Status.correct, true⟩) r c).tile.map TileData.value =
            some (st.solution r c)) ∧
        (((setCell st.boardState hr hc
          ⟨some ⟨st.solution hr hc, calculateBase (st.solution hr hc)⟩,
           Status.correct, true⟩) r c).status = Status.empty ↔
          ((setCell st.boardState hr hc
          ⟨some ⟨st.solution hr hc, calculateBase (st.solution hr hc)⟩,
           Status.correct, true⟩) r c).tile = none)
      by_cases hrc : r = hr ∧ c = hc
      · rcases hrc with ⟨rfl, rfl⟩
        rw [setCell_self]
        simp
      · rw [setCell_ne _ _ _ _ _ _ hrc]
        exact hsc r c
    · show (if (st.boardState hr hc).status ≠ Status.correct
          then st.correctTilesCount + 1 else st.correctTilesCount) =
        countCorrect (setCell st.boardState hr hc
          ⟨some ⟨st.solution hr hc, calculateBase (st.solution hr hc)⟩,
           Status.correct, true⟩)
      rw [if_pos hstat]
      rw [countCorrect, card_cellsWhere_setCell_not_mem _ _ _ _ _ hstat]
      rw [if_pos rfl]
      rw [hcnt, countCorrect]

theorem winv_submit (st : GameState) (hw : WInv st) :
    WInv (handleFinalCodeSubmit st).1 := by
  obtain ⟨h1, h2, h3, h4⟩ := hw
  unfold handleFinalCodeSubmit
  split
  · exact ⟨h1, h2, h3, fun hph => by simp at hph⟩
  · exact ⟨h1, h2, h3, fun hph => h4 hph⟩

theorem winv_transition (st : GameState) (rr rc : Fin GRID_SIZE)
    (hw : WInv st) : WInv (checkPhaseTransition st rr rc).1 := by
  obtain ⟨h1, h2, h3, h4⟩ := hw
  unfold checkPhaseTransition
  split
  · exact ⟨h1, h2, h3, fun hph => by simp at hph⟩
  · exact ⟨h1, h2, h3, h4⟩

theorem winv_step (st st' : GameState) (hw : WInv st) (hstep : Step st st') :
    WInv st' := by
  cases hstep with
  | dragStart t hmem =>
    obtain ⟨h1, h2, h3, h4⟩ := hw
    exact ⟨h1, h2, h3, h4⟩
  | drop row col => exact winv_drop st row col hw
  | tileReturn t row col hcell => exact winv_return st t row col hw
  | hint idx => exact winv_hint st idx hw
  | submitCode => exact winv_submit st hw
  | phaseTransition rr rc => exact winv_transition st rr rc hw

theorem winv_reachable (sol : Solution) (pal : List TileData) (st : GameState)
    (hsol : SolutionValid sol) (hreach : Reachable sol pal st) : WInv st := by
  induction hreach with
  | init => exact winv_initial sol pal hsol
  | step hr hs ih => exact winv_step _ _ ih hs

theorem inv_step (st st' : GameState) (hinv : Inv st)
    (hstep : FreshStep st st') : Inv st' := by
  cases hstep with
  | drop t row col hmem => exact inv_drop st t row col hinv hmem
  | tileReturn t row col hcell => exact inv_return st t row col hinv hcell
  | hint idx => exact inv_hint st idx hinv
  | submitCode => exact inv_submit st hinv
  | phaseTransition rr rc => exact inv_transition st rr rc hinv

theorem inv_reachable (sol : Solution) (pal : List TileData) (st : GameState)
    (hsol : SolutionValid sol) (hpal : PaletteInit pal)
    (hreach : FreshReachable sol pal st) : Inv st := by
  induction hreach with
  | init => exact inv_initial sol pal hsol hpal
  | step hr hs ih => exact inv_step _ _ ih hs

theorem step_count_mono (st st' : GameState) (hstep : Step st st') :
    st.correctTilesCount ≤ st'.correctTilesCount := by
  cases hstep with
  | dragStart t hmem =>
    exact Nat.le_refl _
  | drop row col =>
    rcases handleDrop_cases st row col with
      heq | ⟨t, hphase, hdrag, hempty, hbase, hseq⟩
    · rw [heq]
    · rw [handleDrop_accept st t row col hphase hdrag hempty hbase hseq]
      show st.correctTilesCount ≤
        (if st.solution row col = t.value then st.correctTilesCount + 1
         else st.correctTilesCount)
      split <;> omega
  | tileReturn t row col hcell =>
    rcases handleTileReturn_cases st t row col with heq | ⟨_, _, heq⟩
    · rw [heq]
    · rw [heq]
  | hint idx =>
    rcases handleHint_cases st idx with heq | ⟨hphase, hne⟩
    · rw [heq]
    · rw [handleHint_progress st idx hphase hne]
      omega
  | submitCode =>
    unfold handleFinalCodeSubmit
    split <;> exact Nat.le_refl _
  | phaseTransition rr rc =>
    unfold checkPhaseTransition
    split <;> exact Nat.le_refl _

theorem hint_preserves_correct (st : GameState) (idx : Nat)
    (hsol : SolutionValid st.solution) (hsc : StatusConsistent st)
    (q : Fin GRID_SIZE × Fin GRID_SIZE)
    (hq : (st.boardState q.1 q.2).status = Status.correct) :
    ((handleHint st idx).1.boardState q.1 q.2).status = Status.correct := by
  rcases handleHint_cases st idx with heq | ⟨hphase, hne⟩
  · rw [heq]
    exact hq
  rcases hpick : (unsolvedCells st.boardState).getD
      (idx % (unsolvedCells st.boardState).length) (0, 0) with ⟨hr, hc⟩
  have hmem : ((hr, hc) : Fin GRID_SIZE × Fin GRID_SIZE) ∈
      unsolvedCells st.boardState := by
    rw [← hpick]
    exact getD_mod_mem _ _ _ hne
  have hstat : (st.boardState hr hc).status ≠ Status.correct :=
    (mem_unsolvedCells _ _).mp hmem
  have htargetne : (st.boardState hr hc).tile.map TileData.value ≠
      some (st.solution hr hc) := by
    intro hcontra
    exact hstat ((hsc hr hc).1.mpr hcontra)
  have hqne : ¬(q.1 = hr ∧ q.2 = hc) := by
    intro hcon
    rw [hcon.1, hcon.2] at hq
    exact hstat hq
  cases hfind : findCellWithValue st.boardState (st.solution hr hc) with
  | some p =>
    have hpmap : (st.boardState p.1 p.2).tile.map TileData.value =
        some (st.solution hr hc) := findCellWithValue_some _ _ _ hfind
    have hpne : ¬(hr = p.1 ∧ hc = p.2) := by
      intro hcontra
      rw [← hcontra.1, ← hcontra.2] at hpmap
      exact htargetne hpmap
    have hpstat : (st.boardState p.1 p.2).status ≠ Status.correct := by
      intro hcontra
      have h2 := (hsc p.1 p.2).1.mp hcontra
      rw [hpmap] at h2
      exact hpne (hsol.2 hr hc p.1 p.2 (Option.some.inj h2))
    have hqnep : ¬(q.1 = p.1 ∧ q.2 = p.2) := by
      intro hcon
      rw [hcon.1, hcon.2] at hq
      exact hpstat hq
    rw [handleHint_found st idx hr hc p hphase hne hpick hfind]
    show ((setCell (setCell st.boardState p.1 p.2 emptyCell) hr hc
      ⟨some ⟨st.solution hr hc, calculateBase (st.solution hr hc)⟩,
       Status.correct, true⟩) q.1 q.2).status = Status.correct
    rw [setCell_ne _ _ _ _ _ _ hqne, setCell_ne _ _ _ _ _ _ hqnep]
    exact hq
  | none =>
    rw [handleHint_notfound st idx hr hc hphase hne hpick hfind]
    show ((setCell st.boardState hr hc
      ⟨some ⟨st.solution hr hc, calculateBase (st.solution hr hc)⟩,
       Status.correct, true⟩) q.1 q.2).status = Status.correct
    rw [setCell_ne _ _ _ _ _ _ hqne]
    exact hq

/-- C7 counterexample: a concrete program trace violating single-container
ownership. From a new game, drag the value-1 tile from the palette
(`handleDragStart`; App.tsx keeps `draggedTile` set until a drop is accepted),
let a hint claim cell (0,0) — whose solution Value is 1 — which removes that
tile from the palette and puts Value 1 on the board, then drop the stale
dragged tile at the empty, sequence-valid cell (2,0): `handleDrop` accepts it,
and Value 1 now sits in two board cells while the palette holds none,
refuting "exactly one container holds v" for a reachable state. -/
theorem ownership_violation_cex :
    Reachable canonicalSol canonicalPal staleDragState ∧
    (staleDragState.boardState 0 0).tile.map TileData.value = some 1 ∧
    (staleDragState.boardState 2 0).tile.map TileData.value = some 1 ∧
    paletteCount staleDragState.paletteTiles 1 = 0 ∧
    boardCount staleDragState.boardState 1 = 2 ∧
    ¬ OwnsValue staleDragState 1 := by
  refine ⟨?_, by decide, by decide, by decide, by decide, by decide⟩
  exact Reachable.step
    (Reachable.step
      (Reachable.step Reachable.init (Step.dragStart _ ⟨1, 1⟩ (by decide)))
      (Step.hint _ 0))
    (Step.drop _ 2 0)

/-- C7 (amended): in every session state reachable from a new game (valid
solution grid, palette holding each Value 1..81 exactly once) under the
fresh-drag discipline — every placement's dragged tile still in the palette
when the drop fires — every Value in [1, 81] is held by exactly one container:
either exactly one palette tile and no board cell, or exactly one board cell
and no palette tile; such placements, returns, hints, code submissions and
phase transitions all preserve this. Without that discipline the program can
duplicate a Value onto two board cells (see the stale-drag trace). -/
theorem ownership_invariant (sol : Solution) (pal : List TileData)
    (st : GameState) (hsol : SolutionValid sol) (hpal : PaletteInit pal)
    (hreach : FreshReachable sol pal st) : Ownership st :=
  (inv_reachable sol pal st hsol hpal hreach).2.1

theorem ownership_invariant_witness :
    SolutionValid canonicalSol ∧ PaletteInit canonicalPal ∧
    Ownership (initialState canonicalSol canonicalPal) := by
  have hs : SolutionValid canonicalSol := by decide
  have hp : PaletteInit canonicalPal := by decide
  exact ⟨hs, hp, ownership_invariant _ _ _ hs hp FreshReachable.init⟩

/-- C10: in every reachable session state (statuses consistent with the
solution and solution values pairwise distinct hold there, as established by
the session invariant), the correctness counter equals the number of cells
with status `correct`; every single operation preserves this equality and
never decreases the number of correct cells; and the board-eviction step of a
hint never empties a cell whose status is `correct` (such cells keep status
`correct` across any hint). -/
theorem counter_consistency_spec (sol : Solution) (pal : List TileData)
    (st : GameState) (hsol : SolutionValid sol) (hpal : PaletteInit pal)
    (hreach : Reachable sol pal st) :
    CounterOk st ∧
    (∀ st', Step st st' → CounterOk st' ∧
        countCorrect st.boardState ≤ countCorrect st'.boardState) ∧
    (∀ (idx : Nat) (q : Fin GRID_SIZE × Fin GRID_SIZE),
        (st.boardState q.1 q.2).status = Status.correct →
        ((handleHint st idx).1.boardState q.1 q.2).status = Status.correct) := by
  have hw := winv_reachable sol pal st hsol hreach
  obtain ⟨hsolst, hsc, hcnt, hans⟩ := hw
  refine ⟨hcnt, ?_, ?_⟩
  · intro st' hstep
    have hw' := winv_step st st' ⟨hsolst, hsc, hcnt, hans⟩ hstep
    obtain ⟨_, _, hcnt', _⟩ := hw'
    refine ⟨hcnt', ?_⟩
    have hmono := step_count_mono st st' hstep
    rw [CounterOk] at hcnt hcnt'
    omega
  · intro idx q hq
    exact hint_preserves_correct st idx hsolst hsc q hq

theorem counter_consistency_spec_witness :
    SolutionValid canonicalSol ∧ PaletteInit canonicalPal ∧
    CounterOk (initialState canonicalSol canonicalPal) := by
  have hs : SolutionValid canonicalSol := by decide
  have hp : PaletteInit canonicalPal := by decide
  exact ⟨hs, hp, (counter_consistency_spec _ _ _ hs hp Reachable.init).1⟩

end InvPreservation

end Binokub
